import Mathlib

set_option maxHeartbeats 1000000

/-!
Verification development for the county land-record pattern analysis
repository: a shallow embedding of the structural fingerprinter
(pattern_analyzer.py, def _get_pattern), the doc-type normalization
pipeline (llm_classifier.py, defs stem_word and normalize), and the
streaming county aggregation engine (pattern_analyzer.py, defs
process_record, DateRange.update, BookPatternInfo.add_page,
_build_instrument_patterns, _build_book_patterns, generate_report),
together with theorems settling the specification claims.

Python dicts are modelled as insertion-ordered association lists,
Python floats for percentages as rationals with round-half-even,
and dates as year/month/day triples with lexicographic order.
-/

/-! ## Character and string utilities -/

/-- Word character for the regex word-boundary assertions: ASCII
alphanumeric or underscore. -/
def isWordChar (c : Char) : Bool := c.isAlphanum || c = '_'

/-- Three-way comparison of char lists by code point, i.e. the order
Python uses to compare and sort strings. -/
def ccmp : List Char → List Char → Ordering
  | [], [] => .eq
  | [], _ :: _ => .lt
  | _ :: _, [] => .gt
  | a :: as, b :: bs =>
    if a.toNat < b.toNat then .lt
    else if b.toNat < a.toNat then .gt
    else ccmp as bs

/-- String comparison by code point (Python string order). -/
def scmp (a b : String) : Ordering := ccmp a.data b.data

/-- Stable ascending insertion for sorting token lists the way Python
sorted() sorts a list of strings (duplicates kept). -/
def insAsc (a : String) : List String → List String
  | [] => [a]
  | b :: bs => if scmp a b = .lt then a :: b :: bs else b :: insAsc a bs

/-- Ascending stable sort of strings; agrees with Python sorted() on
strings since the order is total and ties are identical strings. -/
def sortAsc : List String → List String
  | [] => []
  | a :: l => insAsc a (sortAsc l)

/-- Ordered duplicate-free insertion: models adding an element to a
Python set whose only observation is the sorted list of its elements. -/
def sinsert (a : String) : List String → List String
  | [] => [a]
  | b :: bs =>
    match scmp a b with
    | .lt => a :: b :: bs
    | .eq => b :: bs
    | .gt => b :: sinsert a bs

/-- Split a character list on whitespace runs, dropping empty pieces:
the combined effect of the whitespace-collapse re.sub, strip() and
split() in the normalization pipeline. -/
def splitWsGo (cur : List Char) : List Char → List (List Char)
  | [] => if cur.isEmpty then [] else [cur]
  | c :: cs =>
    if c.isWhitespace then
      if cur.isEmpty then splitWsGo [] cs else cur :: splitWsGo [] cs
    else
      splitWsGo (cur ++ [c]) cs

/-- Tokenize on whitespace (see splitWsGo). -/
def splitWs (s : List Char) : List String := (splitWsGo [] s).map (fun l => ⟨l⟩)

/-- Join strings with single spaces, as str.join does. -/
def joinSpace : List String → String
  | [] => ""
  | [w] => w
  | w :: ws => w ++ " " ++ joinSpace ws

/-- Bool test: pat is a prefix of s (chars compared by code point). -/
def startsWithL : List Char → List Char → Bool
  | [], _ => true
  | _ :: _, [] => false
  | a :: as, b :: bs => a = b && startsWithL as bs

/-! ## Structural fingerprinter (pattern_analyzer.py, def _get_pattern)

The source applies re.sub with the regex of digit, lowercase and
uppercase runs, replacing each maximal run by a class token carrying the
run length and leaving every other character in place.  The embedding is
the equivalent left-to-right run scanner, written structurally. -/

/-- The three character classes of the fingerprint regex. -/
inductive RunKind
  | dig
  | low
  | upp
deriving DecidableEq

/-- Class of a character under the fingerprint regex alternation, in the
order the source tests them (digits, lowercase, uppercase). -/
def kindOf? (c : Char) : Option RunKind :=
  if c.isDigit then some .dig
  else if c.isLower then some .low
  else if c.isUpper then some .upp
  else none

/-- The replacement token for one maximal run, as the replacer builds it. -/
def runTok (k : RunKind) (n : Nat) : List Char :=
  let tag : Char := match k with | .dig => 'd' | .low => 'l' | .upp => 'u'
  '\\' :: tag :: '\x7b' :: (Nat.repr n).data ++ ['\x7d']

/-- Run scanner: pend carries the class and length of the run read so
far; a class change or a literal character flushes it. -/
def getPatternGo : Option (RunKind × Nat) → List Char → List Char
  | none, [] => []
  | some (k, n), [] => runTok k n
  | pend, c :: cs =>
    match kindOf? c with
    | none =>
      (match pend with
       | none => []
       | some (k, n) => runTok k n) ++ c :: getPatternGo none cs
    | some k =>
      match pend with
      | none => getPatternGo (some (k, 1)) cs
      | some (k', n) =>
        if k = k' then getPatternGo (some (k', n + 1)) cs
        else runTok k' n ++ getPatternGo (some (k, 1)) cs

/-- def _get_pattern of pattern_analyzer.py (identical copy in
src/utils.py): the structural fingerprint of a string. -/
def getPattern (s : String) : String := ⟨getPatternGo none s.data⟩


/-! ## Doc-type normalization (llm_classifier.py)

The claims cite the finished copy llm_classifier.py; its ABBREVIATIONS,
STOP_WORDS, STEM_PROTECT and STEM_RULES tables are reproduced below in
source order (dict and list order is iteration order in Python). -/

/-- ABBREVIATIONS of llm_classifier.py, in dict insertion order. -/
def ABBREVIATIONS : List (String × String) :=
  [("D/T", "DEED TRUST"), ("DOT", "DEED TRUST"), ("D TR", "DEED TRUST"), ("DTR", "DEED TRUST"),
   ("WARR", "WARRANTY"), ("WD", "WARRANTY DEED"), ("W/D", "WARRANTY DEED"),
   ("MTG", "MORTGAGE"), ("MORG", "MORTGAGE"), ("MORTG", "MORTGAGE"),
   ("REL", "RELEASE"), ("SAT", "SATISFACTION"), ("SATIS", "SATISFACTION"),
   ("LN", "LIEN"), ("ASSN", "ASSIGNMENT"), ("ASSGN", "ASSIGNMENT"), ("ASGN", "ASSIGNMENT"),
   ("ESMT", "EASEMENT"), ("AMEND", "AMENDMENT"), ("AMD", "AMENDMENT"),
   ("AGRMT", "AGREEMENT"), ("AGR", "AGREEMENT"), ("DECL", "DECLARATION"),
   ("POA", "POWER ATTORNEY"), ("P/A", "POWER ATTORNEY"),
   ("SUBORD", "SUBORDINATION"), ("SUB", "SUBORDINATION"),
   ("FORECL", "FORECLOSURE"), ("NTC", "NOTICE"), ("NOT", "NOTICE"),
   ("JUDG", "JUDGMENT"), ("JDG", "JUDGMENT"), ("CERT", "CERTIFICATE"),
   ("TR", "TRUSTEE"), ("TRST", "TRUSTEE"), ("CORP", "CORPORATION")]

/-- STOP_WORDS of llm_classifier.py. -/
def STOP_WORDS : List String :=
  ["OF", "AND", "THE", "OR", "FOR", "TO", "A", "AN", "IN", "AT", "BY"]

/-- STEM_PROTECT of llm_classifier.py. -/
def STEM_PROTECT : List String :=
  ["DEED", "TRUST", "LIEN", "NOTICE", "LEASE", "RELEASE", "TRUSTEE",
   "MORTGAGE", "CERTIFICATE", "AGREEMENT", "JUDGMENT", "ASSIGNMENT",
   "EASEMENT", "AMENDMENT", "DECLARATION", "SUBORDINATION", "FORECLOSURE",
   "SATISFACTION", "WARRANTY", "RESTRICTION", "COVENANT", "POWER",
   "ATTORNEY", "MODIFICATION", "AFFIDAVIT"]

/-- STEM_RULES of llm_classifier.py, in list order. -/
def STEM_RULES : List (String × String) :=
  [("CATIONS", "CATE"), ("CATION", "CATE"), ("ATIONS", "ATE"), ("ATION", "ATE"),
   ("INGS", ""), ("ING", ""), ("ANCES", "ANCE"), ("ENCES", "ENCE"),
   ("ITIES", "ITY"), ("TIONS", "TION"), ("SIONS", "SION"),
   ("SES", "SE"), ("IES", "Y"), ("ES", "E")]

/-- Bool test: suf is a suffix of s, i.e. Python str.endswith. -/
def endsWithL (s suf : List Char) : Bool :=
  suf.length ≤ s.length && s.drop (s.length - suf.length) == suf

/-- The for loop of stem_word: first rule of the table whose suffix
matches with a remaining stem of at least 3 characters. -/
def findRuleGo (w : List Char) : List (String × String) → Option (String × String)
  | [] => none
  | (suf, rep) :: rs =>
    if endsWithL w suf.data && 3 ≤ w.length - suf.data.length then some (suf, rep)
    else findRuleGo w rs

/-- def stem_word of llm_classifier.py. -/
def stem_word (word : String) : String :=
  if word ∈ STEM_PROTECT ∨ word.length ≤ 4 then word
  else
    match findRuleGo word.data STEM_RULES with
    | some (suf, rep) => (⟨word.data.take (word.data.length - suf.data.length)⟩ : String) ++ rep
    | none =>
      if endsWithL word.data ['S'] && !endsWithL word.data ['S', 'S'] && 4 < word.length then
        ⟨word.data.dropLast⟩
      else word

/-- Last character of the nonempty list a :: as. -/
def lastOf (a : Char) : List Char → Char
  | [] => a
  | b :: bs => lastOf b bs

/-- One re.sub pass with the pattern of a whole-word abbreviation
(lookbehind and lookahead refusing word characters), scanning left to
right over the original characters and never rescanning a replacement,
exactly as re.sub does.  prev is the original character preceding the
scan position.  Fuel is the remaining length plus one, so it never runs
out; it only makes the recursion structural. -/
def subWWFuel (a : Char) (as repl : List Char) : Nat → Option Char → List Char → List Char
  | 0, _, s => s
  | _ + 1, _, [] => []
  | fuel + 1, prev, c :: cs =>
    if startsWithL (a :: as) (c :: cs)
        && !(match prev with | none => false | some p => isWordChar p)
        && (match cs.drop as.length with | [] => true | d :: _ => !isWordChar d) then
      repl ++ subWWFuel a as repl fuel (some (lastOf a as)) (cs.drop as.length)
    else
      c :: subWWFuel a as repl fuel (some c) cs

/-- Whole-word regex substitution of one abbreviation (step 2 of
normalize): re.sub with lookarounds refusing adjacent word characters. -/
def subWholeWord (abbr repl : String) (s : List Char) : List Char :=
  match abbr.data with
  | [] => s
  | a :: as => subWWFuel a as repl.data (s.length + 1) none s

/-- Punctuation and special characters replaced by spaces in step 3 of
normalize. -/
def isPunct (c : Char) : Bool :=
  ['.', '-', '/', '&', ',', '(', ')', '#', '*', '\'', '"', '\\'].contains c

/-- Token-level abbreviation lookup (step 5 of normalize):
ABBREVIATIONS.get(w, w). -/
def abbrGet (w : String) : String :=
  match ABBREVIATIONS.find? (fun p => p.1 == w) with
  | some p => p.2
  | none => w

/-- def normalize of llm_classifier.py: uppercase, whole-word
abbreviation expansion, punctuation removal, whitespace collapse,
token-level abbreviation expansion with re-tokenization, stop-word
removal, stemming, empty-token removal, alphabetical sort and join. -/
def Classifier.normalize (raw : String) : String :=
  if raw = "" then ""
  else
    let s1 : List Char := raw.data.map Char.toUpper
    let s2 : List Char := ABBREVIATIONS.foldl (fun s p => subWholeWord p.1 p.2 s) s1
    let s3 : List Char := s2.map (fun c => if isPunct c then ' ' else c)
    let words1 := splitWs s3
    let words2 := splitWs (joinSpace (words1.map abbrGet)).data
    let words3 := words2.filter (fun w => !STOP_WORDS.contains w)
    let words4 := words3.map stem_word
    let words5 := words4.filter (fun w => w ≠ "")
    joinSpace (sortAsc words5)


/-! ## Dates

datetime.date values compare lexicographically by (year, month, day);
str(date) renders zero-padded ISO format.  The record parser only ever
produces valid dates, but none of the proofs below needs validity, so
the embedding allows arbitrary numeric fields. -/

/-- A calendar date as datetime.date exposes it. -/
structure SDate where
  year : Nat
  month : Nat
  day : Nat
deriving DecidableEq

/-- Non-strict date order (lexicographic, as datetime.date compares). -/
def dle (a b : SDate) : Prop :=
  a.year < b.year ∨
    (a.year = b.year ∧ (a.month < b.month ∨ (a.month = b.month ∧ a.day ≤ b.day)))

/-- Strict date order (lexicographic, as datetime.date compares). -/
def dlt (a b : SDate) : Prop :=
  a.year < b.year ∨
    (a.year = b.year ∧ (a.month < b.month ∨ (a.month = b.month ∧ a.day < b.day)))

instance (a b : SDate) : Decidable (dle a b) := by unfold dle; infer_instance

instance (a b : SDate) : Decidable (dlt a b) := by unfold dlt; infer_instance

/-- Zero-padded two-digit field of an ISO date. -/
def pad2 (n : Nat) : String := if n < 10 then "0" ++ Nat.repr n else Nat.repr n

/-- Zero-padded four-digit year of an ISO date. -/
def pad4 (n : Nat) : String :=
  if n < 10 then "000" ++ Nat.repr n
  else if n < 100 then "00" ++ Nat.repr n
  else if n < 1000 then "0" ++ Nat.repr n
  else Nat.repr n

/-- str(date): the ISO rendering used for anomaly strings and the
report's date_range field. -/
def toIso (d : SDate) : String := pad4 d.year ++ "-" ++ pad2 d.month ++ "-" ++ pad2 d.day

/-! ## Insertion-ordered dictionaries

Python dicts (and defaultdicts and Counters) iterate in key insertion
order; a get-or-create access followed by a mutation is one updateA:
an existing key keeps its position and gets the new value, a missing
key is appended at the end with the function applied to the default. -/

/-- Mutate the value at a key, inserting f d at the end if absent. -/
def updateA {V : Type} (k : String) (d : V) (f : V → V) : List (String × V) → List (String × V)
  | [] => [(k, f d)]
  | (k', v) :: rest => if k' = k then (k', f v) :: rest else (k', v) :: updateA k d f rest

/-- Dictionary lookup. -/
def lookupA {V : Type} (k : String) : List (String × V) → Option V
  | [] => none
  | (k', v) :: rest => if k' = k then some v else lookupA k rest

/-! ## Data classes of pattern_analyzer.py -/

/-- dataclass InstrumentPatternInfo.  The source field named example is
called exampleStr here because example is a Lean keyword. -/
structure InstrumentPatternInfo where
  exampleStr : String := ""
  count : Nat := 0
deriving DecidableEq

/-- dataclass BookPatternInfo.  The float infinity sentinels of
min_page and max_page are modelled as none (they are observable only
through the report, which maps them to null). -/
structure BookPatternInfo where
  page_patterns : List (String × Nat) := []
  min_page : Option Nat := none
  max_page : Option Nat := none
deriving DecidableEq

/-- dataclass DateRange.  The anomalies set is modelled by the sorted
duplicate-free list of its elements, its only observation in the code. -/
structure DateRange where
  earliest : Option SDate := none
  latest : Option SDate := none
  anomalies : List String := []
deriving DecidableEq

/-- DateRange._MIN_DATE. -/
def MIN_DATE : SDate := ⟨1900, 1, 1⟩

/-- def DateRange.update: no-op on a missing date; out-of-range dates
go to anomalies as literal strings; in-range dates fold into the
earliest/latest bounds, the first one seeding both.  Python's two-value
min keeps the first argument on ties and the code passes the stored
bound first, hence the strict comparisons. -/
def DateRange.update (today : SDate) (dr : DateRange) (date : Option SDate) : DateRange :=
  match date with
  | none => dr
  | some d =>
    if dlt d MIN_DATE ∨ dlt today d then
      { dr with anomalies := sinsert (toIso d) dr.anomalies }
    else
      { dr with
          earliest := some (match dr.earliest with
            | none => d
            | some e => if dlt d e then d else e)
          latest := some (match dr.latest with
            | none => d
            | some l => if dlt l d then d else l) }

/-- dataclass DocTypeTracker. -/
structure DocTypeTracker where
  counts : List (String × Nat) := []
deriving DecidableEq

/-- def DocTypeTracker.add: counts the raw doc type, skipping falsy
(empty) strings. -/
def DocTypeTracker.add (t : DocTypeTracker) (doc_type : String) : DocTypeTracker :=
  if doc_type = "" then t else { counts := updateA doc_type 0 (· + 1) t.counts }

/-- def DocTypeTracker.unique_count. -/
def DocTypeTracker.unique_count (t : DocTypeTracker) : Nat := t.counts.length

/-- dataclass CountyData. -/
structure CountyData where
  record_count : Nat := 0
  instrument_patterns : List (String × InstrumentPatternInfo) := []
  book_patterns : List (String × BookPatternInfo) := []
  date_range : DateRange := {}
  doc_types : DocTypeTracker := {}
deriving DecidableEq

/-- dataclass ParsedRecord: the typed record process_record consumes
(fields already cleaned; date already parsed or null). -/
structure ParsedRecord where
  county : String
  instrument_number : String
  book : String
  page : String
  date : Option SDate
  doc_type : String
deriving DecidableEq

/-- Decimal value of an all-digit string, i.e. int(value). -/
def natOfDigits (l : List Char) : Nat :=
  l.foldl (fun acc c => acc * 10 + (c.toNat - '0'.toNat)) 0

/-- def BookPatternInfo.add_page: empty pages are ignored entirely;
otherwise the page fingerprint count rises and, for all-digit pages,
the numeric min/max fold in. -/
def BookPatternInfo.add_page (bp : BookPatternInfo) (value : String) : BookPatternInfo :=
  if value = "" then bp
  else
    let bp1 := { bp with page_patterns := updateA (getPattern value) 0 (· + 1) bp.page_patterns }
    if value.data.all Char.isDigit then
      let n := natOfDigits value.data
      { bp1 with
          min_page := some (match bp1.min_page with | none => n | some m => min m n)
          max_page := some (match bp1.max_page with | none => n | some m => max m n) }
    else bp1

/-- The body of process_record once the record's county bucket is in
hand: all four per-record mutations of one CountyData. -/
def stepCounty (today : SDate) (record : ParsedRecord) (county : CountyData) : CountyData :=
  let inst_pat := getPattern record.instrument_number
  { record_count := county.record_count + 1
    instrument_patterns :=
      updateA inst_pat {}
        (fun info => { exampleStr := record.instrument_number, count := info.count + 1 })
        county.instrument_patterns
    book_patterns :=
      updateA (getPattern record.book) {} (fun bp => bp.add_page record.page)
        county.book_patterns
    date_range := county.date_range.update today record.date
    doc_types := county.doc_types.add record.doc_type }

/-- def process_record of pattern_analyzer.py: one streaming step.
today parametrizes the impure datetime.date.today() call inside
DateRange.update. -/
def process_record (today : SDate) (record : ParsedRecord)
    (counties : List (String × CountyData)) : List (String × CountyData) :=
  updateA record.county {} (stepCounty today record) counties

/-- The whole aggregation pass of main(): records stream in file order
into a fresh defaultdict of counties. -/
def runAgg (today : SDate) (records : List ParsedRecord) : List (String × CountyData) :=
  records.foldl (fun st r => process_record today r st) []

/-! ## Report generation -/

/-- Stable descending insertion by a numeric key. -/
def insertDesc {α : Type} (key : α → Nat) (a : α) : List α → List α
  | [] => [a]
  | b :: bs => if key a < key b then b :: insertDesc key a bs else a :: b :: bs

/-- Stable descending sort by a numeric key: the behavior of Python's
sorted(..., reverse=True) and of Counter.most_common, both stable. -/
def sortDescBy {α : Type} (key : α → Nat) : List α → List α
  | [] => []
  | a :: l => insertDesc key a (sortDescBy key l)

/-- Counter.most_common(): all entries, count descending, ties in
first-seen order. -/
def most_common (l : List (String × Nat)) : List (String × Nat) := sortDescBy (fun p => p.2) l

/-- def DocTypeTracker.top_n: Counter.most_common(n). -/
def DocTypeTracker.top_n (t : DocTypeTracker) (n : Nat) : List (String × Nat) :=
  (most_common t.counts).take n

/-- Round half to even of the fraction a/b (b positive): Python's
round to an integer, on the exact rational value, written with integer
arithmetic so that concrete reports evaluate inside the kernel. -/
def roundHalfEvenFrac (a b : ℤ) : ℤ :=
  let n := a / b
  let r := a % b
  if 2 * r < b then n
  else if b < 2 * r then n + 1
  else if n % 2 = 0 then n else n + 1

/-- round(x, 2) on the exact rational value: the number of hundredths
of x, rounded half to even. -/
def pyRound2 (x : ℚ) : ℚ := Rat.divInt (roundHalfEvenFrac (100 * x.num) (x.den : ℤ)) 100

/-- One entry of the report's instrument_patterns list.  The source
dict key example is called exampleStr (example is a Lean keyword). -/
structure InstPatEntry where
  pattern : String
  regex : String
  exampleStr : String
  count : Nat
  percentage : ℚ
deriving DecidableEq

/-- def _build_instrument_patterns of pattern_analyzer.py. -/
def build_instrument_patterns (data : CountyData) (total : Nat) : List InstPatEntry :=
  sortDescBy (fun e => e.count)
    (data.instrument_patterns.map (fun p =>
      { pattern := p.1
        regex := "^" ++ p.1 ++ "$"
        exampleStr := p.2.exampleStr
        count := p.2.count
        percentage := if total = 0 then 0
          else pyRound2 (Rat.divInt (100 * (p.2.count : ℤ)) (total : ℤ)) }))

/-- One nested page-pattern entry of the report. -/
structure PagePatEntry where
  pattern : String
  count : Nat
deriving DecidableEq

/-- One entry of the report's book_patterns list. -/
structure BookPatEntry where
  pattern : String
  regex : String
  page_patterns : List PagePatEntry
  page_min : Option Nat
  page_max : Option Nat
deriving DecidableEq

/-- def _build_book_patterns of pattern_analyzer.py. -/
def build_book_patterns (data : CountyData) : List BookPatEntry :=
  sortDescBy (fun e => (e.page_patterns.map (fun p => p.count)).sum)
    (data.book_patterns.map (fun p =>
      { pattern := p.1
        regex := "^" ++ p.1 ++ "$"
        page_patterns := (most_common p.2.page_patterns).map (fun q => ⟨q.1, q.2⟩)
        page_min := p.2.min_page
        page_max := p.2.max_page }))

/-- The report's date_range object. -/
structure DateRangeReport where
  earliest : Option String
  latest : Option String
  anomalies : List String
deriving DecidableEq

/-- One county's report object. -/
structure CountyReport where
  record_count : Nat
  instrument_patterns : List InstPatEntry
  book_patterns : List BookPatEntry
  date_range : DateRangeReport
  doc_type_distribution : List (String × Nat)
  unique_doc_types : Nat
deriving DecidableEq

/-- def generate_report of pattern_analyzer.py.  The anomalies list of
the state already is sorted(anomaly set). -/
def generate_report (counties : List (String × CountyData)) : List (String × CountyReport) :=
  counties.map (fun p =>
    (p.1,
     { record_count := p.2.record_count
       instrument_patterns := build_instrument_patterns p.2 p.2.record_count
       book_patterns := build_book_patterns p.2
       date_range :=
         { earliest := p.2.date_range.earliest.map toIso
           latest := p.2.date_range.latest.map toIso
           anomalies := p.2.date_range.anomalies }
       doc_type_distribution := p.2.doc_types.top_n 10
       unique_doc_types := p.2.doc_types.unique_count }))


/-! ## Dictionary lemmas -/

theorem lookupA_updateA {V : Type} (k c : String) (d : V) (f : V → V)
    (l : List (String × V)) :
    lookupA c (updateA k d f l) =
      if c = k then some (f ((lookupA k l).getD d)) else lookupA c l := by
  induction l with
  | nil =>
    rcases eq_or_ne c k with h | h
    · subst h; simp [lookupA, updateA]
    · simp [lookupA, updateA, h, Ne.symm h]
  | cons hd tl ih =>
    obtain ⟨k', v⟩ := hd
    rcases eq_or_ne k' k with hk | hk
    · subst hk
      rcases eq_or_ne c k' with hc | hc
      · subst hc; simp [lookupA, updateA]
      · simp [lookupA, updateA, hc, Ne.symm hc]
    · rcases eq_or_ne c k' with hc | hc
      · subst hc; simp [lookupA, updateA, hk, Ne.symm hk]
      · simp [lookupA, updateA, hk, hc, Ne.symm hc, ih]

theorem lookupA_eq_none_iff {V : Type} (k : String) (l : List (String × V)) :
    lookupA k l = none ↔ k ∉ l.map Prod.fst := by
  induction l with
  | nil => simp [lookupA]
  | cons hd tl ih =>
    obtain ⟨k', v⟩ := hd
    rcases eq_or_ne k' k with hk | hk
    · subst hk; simp [lookupA]
    · simp [lookupA, hk, Ne.symm hk, ih]

theorem keys_updateA {V : Type} (k : String) (d : V) (f : V → V)
    (l : List (String × V)) :
    (updateA k d f l).map Prod.fst =
      if (lookupA k l).isSome then l.map Prod.fst else l.map Prod.fst ++ [k] := by
  induction l with
  | nil => simp [lookupA, updateA]
  | cons hd tl ih =>
    obtain ⟨k', v⟩ := hd
    rcases eq_or_ne k' k with hk | hk
    · subst hk; simp [lookupA, updateA]
    · simp only [updateA, if_neg hk, List.map_cons, ih, lookupA, if_neg (Ne.symm hk)]
      by_cases hx : (lookupA k tl).isSome = true <;> simp [hx]

theorem nodup_keys_updateA {V : Type} (k : String) (d : V) (f : V → V)
    (l : List (String × V)) (h : (l.map Prod.fst).Nodup) :
    ((updateA k d f l).map Prod.fst).Nodup := by
  rw [keys_updateA]
  split
  · exact h
  · next hnone =>
    rw [List.nodup_append]
    refine ⟨h, List.nodup_singleton k, ?_⟩
    intro a ha hb
    simp only [List.mem_singleton] at hb
    subst hb
    have hn : lookupA a l = none := by
      cases hx : lookupA a l with
      | none => rfl
      | some v => rw [hx] at hnone; simp at hnone
    exact (lookupA_eq_none_iff a l).1 hn ha

/-! ## Date order lemmas -/

theorem dle_refl (a : SDate) : dle a a := by simp [dle]

theorem dle_of_dlt {a b : SDate} (h : dlt a b) : dle a b := by
  unfold dlt at h; unfold dle; omega

theorem dle_trans {a b c : SDate} (h1 : dle a b) (h2 : dle b c) : dle a c := by
  unfold dle at *; omega

theorem not_dlt_of_dle {a b : SDate} (h : dle a b) : ¬ dlt b a := by
  unfold dle at h; unfold dlt; omega

theorem dlt_of_dle_of_dlt {a b c : SDate} (h1 : dle a b) (h2 : dlt b c) : dlt a c := by
  unfold dle at h1; unfold dlt at *; omega

theorem dle_or_dle (a b : SDate) : dle a b ∨ dle b a := by
  unfold dle; omega

/-- Python's two-argument min on dates as DateRange.update computes it:
the stored bound is kept unless the new date is strictly smaller; lifted
over the unset (None) bound. -/
def pminD (o : Option SDate) (d : SDate) : SDate :=
  match o with
  | none => d
  | some e => if dlt d e then d else e

/-- Python's two-argument max on dates as DateRange.update computes it. -/
def pmaxD (o : Option SDate) (d : SDate) : SDate :=
  match o with
  | none => d
  | some l => if dlt l d then d else l

theorem pminD_right_comm (o : Option SDate) :
    ∀ d1 d2 : SDate, pminD (some (pminD o d1)) d2 = pminD (some (pminD o d2)) d1 := by
  cases o with
  | none =>
    intro ⟨b1, b2, b3⟩ ⟨c1, c2, c3⟩
    simp only [pminD]
    split_ifs <;> simp_all [dlt, SDate.mk.injEq] <;> omega
  | some e =>
    obtain ⟨a1, a2, a3⟩ := e
    intro ⟨b1, b2, b3⟩ ⟨c1, c2, c3⟩
    simp only [pminD]
    split_ifs <;> simp_all [dlt, SDate.mk.injEq] <;> omega

theorem pmaxD_right_comm (o : Option SDate) :
    ∀ d1 d2 : SDate, pmaxD (some (pmaxD o d1)) d2 = pmaxD (some (pmaxD o d2)) d1 := by
  cases o with
  | none =>
    intro ⟨b1, b2, b3⟩ ⟨c1, c2, c3⟩
    simp only [pmaxD]
    split_ifs <;> simp_all [dlt, SDate.mk.injEq] <;> omega
  | some e =>
    obtain ⟨a1, a2, a3⟩ := e
    intro ⟨b1, b2, b3⟩ ⟨c1, c2, c3⟩
    simp only [pmaxD]
    split_ifs <;> simp_all [dlt, SDate.mk.injEq] <;> omega

theorem dle_pminD (e : SDate) (d : SDate) : dle (pminD (some e) d) e := by
  simp only [pminD]
  split_ifs with hd
  · exact dle_of_dlt hd
  · exact dle_refl e

theorem dle_pmaxD (l : SDate) (d : SDate) : dle l (pmaxD (some l) d) := by
  simp only [pmaxD]
  split_ifs with hd
  · exact dle_of_dlt hd
  · exact dle_refl l

/-! ## String comparison lemmas -/

theorem char_eq_of_toNat {a b : Char} (h : a.toNat = b.toNat) : a = b :=
  Char.eq_of_val_eq (UInt32.toNat.inj h)

theorem ccmp_eq_iff : ∀ a b : List Char, ccmp a b = .eq ↔ a = b := by
  intro a
  induction a with
  | nil => intro b; cases b <;> simp [ccmp]
  | cons x xs ih =>
    intro b
    cases b with
    | nil => simp [ccmp]
    | cons y ys =>
      rcases Nat.lt_trichotomy x.toNat y.toNat with h1 | h1 | h1
      · simp only [ccmp, if_pos h1]
        constructor
        · intro h; simp at h
        · rintro ⟨rfl, rfl⟩
          exact absurd h1 (lt_irrefl _)
      · have hxy : x = y := char_eq_of_toNat h1
        subst hxy
        simp [ccmp, ih]
      · have h2 : ¬ x.toNat < y.toNat := by omega
        simp only [ccmp, if_neg h2, if_pos h1]
        constructor
        · intro h; simp at h
        · rintro ⟨rfl, rfl⟩
          exact absurd h1 (lt_irrefl _)

theorem ccmp_gt_iff_lt : ∀ a b : List Char, ccmp a b = .gt ↔ ccmp b a = .lt := by
  intro a
  induction a with
  | nil => intro b; cases b <;> simp [ccmp]
  | cons x xs ih =>
    intro b
    cases b with
    | nil => simp [ccmp]
    | cons y ys =>
      rcases Nat.lt_trichotomy x.toNat y.toNat with h1 | h1 | h1
      · have h2 : ¬ y.toNat < x.toNat := by omega
        simp [ccmp, h1, h2]
      · have hxy : x = y := char_eq_of_toNat h1
        subst hxy
        simp [ccmp, ih]
      · have h2 : ¬ x.toNat < y.toNat := by omega
        simp [ccmp, h1, h2]

theorem ccmp_lt_trans : ∀ a b c : List Char,
    ccmp a b = .lt → ccmp b c = .lt → ccmp a c = .lt := by
  intro a
  induction a with
  | nil =>
    intro b c hab hbc
    cases c with
    | nil =>
      cases b with
      | nil => exact hbc
      | cons y ys => simp [ccmp] at hbc
    | cons z zs => simp [ccmp]
  | cons x xs ih =>
    intro b c hab hbc
    cases b with
    | nil => simp [ccmp] at hab
    | cons y ys =>
      cases c with
      | nil => simp [ccmp] at hbc
      | cons z zs =>
        rcases Nat.lt_trichotomy x.toNat y.toNat with hxy | hxy | hxy
        · rcases Nat.lt_trichotomy y.toNat z.toNat with hyz | hyz | hyz
          · have hz : x.toNat < z.toNat := by omega
            simp [ccmp, hz]
          · have hz : x.toNat < z.toNat := by omega
            simp [ccmp, hz]
          · have h2 : ¬ y.toNat < z.toNat := by omega
            simp [ccmp, hyz, h2] at hbc
        · have hxyq : x = y := char_eq_of_toNat hxy
          subst hxyq
          rcases Nat.lt_trichotomy x.toNat z.toNat with hxz | hxz | hxz
          · simp [ccmp, hxz]
          · have hxzq : x = z := char_eq_of_toNat hxz
            subst hxzq
            simp only [ccmp, if_neg (lt_irrefl x.toNat)] at hab hbc ⊢
            exact ih ys zs hab hbc
          · have h2 : ¬ x.toNat < z.toNat := by omega
            simp [ccmp, hxz, h2] at hbc
        · have h2 : ¬ x.toNat < y.toNat := by omega
          simp [ccmp, hxy, h2] at hab

theorem scmp_eq_iff (a b : String) : scmp a b = .eq ↔ a = b := by
  unfold scmp
  rw [ccmp_eq_iff]
  constructor
  · intro h
    cases a
    cases b
    exact congrArg String.mk h
  · intro h
    subst h
    rfl

theorem scmp_gt_iff_lt (a b : String) : scmp a b = .gt ↔ scmp b a = .lt :=
  ccmp_gt_iff_lt a.data b.data

theorem scmp_lt_trans {a b c : String} (h1 : scmp a b = .lt) (h2 : scmp b c = .lt) :
    scmp a c = .lt :=
  ccmp_lt_trans a.data b.data c.data h1 h2

theorem sinsert_comm_of_lt {a b : String} (hab : scmp a b = .lt) :
    ∀ l : List String, sinsert a (sinsert b l) = sinsert b (sinsert a l) := by
  have hba : scmp b a = .gt := (scmp_gt_iff_lt b a).2 hab
  intro l
  induction l with
  | nil => simp [sinsert, hab, hba]
  | cons c cs ih =>
    cases hbc : scmp b c with
    | lt =>
      have hac : scmp a c = .lt := scmp_lt_trans hab hbc
      simp [sinsert, hab, hba, hbc, hac]
    | eq =>
      have hcb : c = b := ((scmp_eq_iff b c).1 hbc).symm
      subst hcb
      have hcc : scmp c c = .eq := (scmp_eq_iff c c).2 rfl
      simp [sinsert, hab, hba, hcc]
    | gt =>
      cases hac : scmp a c with
      | lt => simp [sinsert, hab, hba, hbc, hac]
      | eq =>
        have hca : c = a := ((scmp_eq_iff a c).1 hac).symm
        subst hca
        have hcc : scmp c c = .eq := (scmp_eq_iff c c).2 rfl
        simp [sinsert, hba, hbc, hcc]
      | gt => simp [sinsert, hbc, hac, ih]

theorem sinsert_comm (a b : String) (l : List String) :
    sinsert a (sinsert b l) = sinsert b (sinsert a l) := by
  cases hab : scmp a b with
  | lt => exact sinsert_comm_of_lt hab l
  | eq => rw [(scmp_eq_iff a b).1 hab]
  | gt => exact (sinsert_comm_of_lt ((scmp_gt_iff_lt a b).1 hab) l).symm

/-! ## Generic fold machinery for the order-invariance analysis -/

theorem foldl_view {σ α β : Type} (g : σ → α → σ) (V : σ → β) (F : α → β → β)
    (h : ∀ s r, V (g s r) = F r (V s)) :
    ∀ (l : List α) (s : σ), V (l.foldl g s) = l.foldl (fun acc r => F r acc) (V s) := by
  intro l
  induction l with
  | nil => intro s; rfl
  | cons r rs ih =>
    intro s
    simp only [List.foldl_cons, ih, h]

theorem foldl_perm_inv {α β : Type} (f : β → α → β)
    (hf : ∀ b a1 a2, f (f b a1) a2 = f (f b a2) a1)
    {l1 l2 : List α} (p : l1.Perm l2) : ∀ b, l1.foldl f b = l2.foldl f b := by
  induction p with
  | nil => intro b; rfl
  | cons x _ ih =>
    intro b
    simp only [List.foldl_cons]
    exact ih _
  | swap x y l =>
    intro b
    simp only [List.foldl_cons]
    rw [hf]
  | trans _ _ ih1 ih2 =>
    intro b
    rw [ih1, ih2]

/-! ## Accessor lemmas for the per-record update -/

theorem add_page_empty (bp : BookPatternInfo) : bp.add_page "" = bp := by
  simp [BookPatternInfo.add_page]

/-- min over Option Nat as add_page folds it. -/
def ominN (o : Option Nat) (n : Nat) : Nat :=
  match o with
  | none => n
  | some m => min m n

/-- max over Option Nat as add_page folds it. -/
def omaxN (o : Option Nat) (n : Nat) : Nat :=
  match o with
  | none => n
  | some m => max m n

theorem ominN_right_comm (o : Option Nat) (n1 n2 : Nat) :
    ominN (some (ominN o n1)) n2 = ominN (some (ominN o n2)) n1 := by
  cases o <;> simp [ominN] <;> omega

theorem omaxN_right_comm (o : Option Nat) (n1 n2 : Nat) :
    omaxN (some (omaxN o n1)) n2 = omaxN (some (omaxN o n2)) n1 := by
  cases o <;> simp [omaxN] <;> omega

theorem add_page_page_patterns (bp : BookPatternInfo) (v : String) :
    (bp.add_page v).page_patterns =
      if v = "" then bp.page_patterns
      else updateA (getPattern v) 0 (· + 1) bp.page_patterns := by
  unfold BookPatternInfo.add_page
  split_ifs <;> rfl

theorem add_page_min_page (bp : BookPatternInfo) (v : String) :
    (bp.add_page v).min_page =
      if v ≠ "" ∧ v.data.all Char.isDigit then some (ominN bp.min_page (natOfDigits v.data))
      else bp.min_page := by
  by_cases h1 : v = ""
  · simp [BookPatternInfo.add_page, h1]
  · by_cases h2 : v.data.all Char.isDigit
    · simp only [BookPatternInfo.add_page, if_neg h1, if_pos h2, ne_eq, h1,
        not_false_iff, true_and]
      cases bp.min_page <;> simp [ominN]
    · simp [BookPatternInfo.add_page, h1, h2]

theorem add_page_max_page (bp : BookPatternInfo) (v : String) :
    (bp.add_page v).max_page =
      if v ≠ "" ∧ v.data.all Char.isDigit then some (omaxN bp.max_page (natOfDigits v.data))
      else bp.max_page := by
  by_cases h1 : v = ""
  · simp [BookPatternInfo.add_page, h1]
  · by_cases h2 : v.data.all Char.isDigit
    · simp only [BookPatternInfo.add_page, if_neg h1, if_pos h2, ne_eq, h1,
        not_false_iff, true_and]
      cases bp.max_page <;> simp [omaxN]
    · simp [BookPatternInfo.add_page, h1, h2]

theorem update_date_none (today : SDate) (dr : DateRange) :
    DateRange.update today dr none = dr := rfl

theorem update_earliest (today : SDate) (dr : DateRange) (d : SDate) :
    (DateRange.update today dr (some d)).earliest =
      if dlt d MIN_DATE ∨ dlt today d then dr.earliest
      else some (pminD dr.earliest d) := by
  by_cases h : dlt d MIN_DATE ∨ dlt today d
  · simp [DateRange.update, h]
  · simp only [DateRange.update, if_neg h]
    cases dr.earliest <;> simp [pminD]

theorem update_latest (today : SDate) (dr : DateRange) (d : SDate) :
    (DateRange.update today dr (some d)).latest =
      if dlt d MIN_DATE ∨ dlt today d then dr.latest
      else some (pmaxD dr.latest d) := by
  by_cases h : dlt d MIN_DATE ∨ dlt today d
  · simp [DateRange.update, h]
  · simp only [DateRange.update, if_neg h]
    cases dr.latest <;> simp [pmaxD]

theorem update_anomalies (today : SDate) (dr : DateRange) (d : SDate) :
    (DateRange.update today dr (some d)).anomalies =
      if dlt d MIN_DATE ∨ dlt today d then sinsert (toIso d) dr.anomalies
      else dr.anomalies := by
  by_cases h : dlt d MIN_DATE ∨ dlt today d <;> simp [DateRange.update, h]

/-! ## Observational views of the aggregation state

Each view reads one statistic out of the county table; the step lemmas
express the effect of one process_record call on each view, and the
order-invariance analysis reduces to the commutation of these effects. -/

/-- record_count of a county (0 when the bucket does not exist). -/
def rcView (st : List (String × CountyData)) (c : String) : Nat :=
  ((lookupA c st).map (fun cd => cd.record_count)).getD 0

/-- Count of one instrument pattern of one county. -/
def instCountView (st : List (String × CountyData)) (c p : String) : Nat :=
  ((lookupA c st).map (fun cd =>
    ((lookupA p cd.instrument_patterns).map (fun i => i.count)).getD 0)).getD 0

/-- The book-pattern bucket of one county. -/
def bookInfoView (st : List (String × CountyData)) (c b : String) : Option BookPatternInfo :=
  ((lookupA c st).map (fun cd => lookupA b cd.book_patterns)).getD none

/-- Count of one page pattern inside one book-pattern bucket. -/
def pageCountView (st : List (String × CountyData)) (c b p : String) : Nat :=
  ((bookInfoView st c b).map (fun bp => (lookupA p bp.page_patterns).getD 0)).getD 0

/-- Numeric page minimum of one book-pattern bucket. -/
def minPageView (st : List (String × CountyData)) (c b : String) : Option Nat :=
  ((bookInfoView st c b).map (fun bp => bp.min_page)).getD none

/-- Numeric page maximum of one book-pattern bucket. -/
def maxPageView (st : List (String × CountyData)) (c b : String) : Option Nat :=
  ((bookInfoView st c b).map (fun bp => bp.max_page)).getD none

/-- Whether a book-pattern bucket exists. -/
def bookMemView (st : List (String × CountyData)) (c b : String) : Bool :=
  (bookInfoView st c b).isSome

/-- Earliest in-range date of one county. -/
def earliestView (st : List (String × CountyData)) (c : String) : Option SDate :=
  ((lookupA c st).map (fun cd => cd.date_range.earliest)).getD none

/-- Latest in-range date of one county. -/
def latestView (st : List (String × CountyData)) (c : String) : Option SDate :=
  ((lookupA c st).map (fun cd => cd.date_range.latest)).getD none

/-- Sorted anomaly list of one county. -/
def anomaliesView (st : List (String × CountyData)) (c : String) : List String :=
  ((lookupA c st).map (fun cd => cd.date_range.anomalies)).getD []

/-- Count of one raw doc type of one county. -/
def docCountView (st : List (String × CountyData)) (c dt : String) : Nat :=
  ((lookupA c st).map (fun cd => (lookupA dt cd.doc_types.counts).getD 0)).getD 0

/-- The set of raw doc types of one county. -/
def docKeysView (st : List (String × CountyData)) (c : String) : Finset String :=
  ((lookupA c st).map (fun cd => (cd.doc_types.counts.map Prod.fst).toFinset)).getD ∅

/-- unique_doc_types of one county. -/
def uniqueDocsView (st : List (String × CountyData)) (c : String) : Nat :=
  ((lookupA c st).map (fun cd => cd.doc_types.unique_count)).getD 0

/-! ## Step lemmas: the effect of one record on each view -/

theorem mapView_process {β : Type} (today : SDate) (r : ParsedRecord)
    (st : List (String × CountyData)) (c : String)
    (W : CountyData → β) (z : β) (G : β → β)
    (hW : ∀ cd, W (stepCounty today r cd) = G (W cd)) (hz : W {} = z) :
    ((lookupA c (process_record today r st)).map W).getD z =
      if c = r.county then G (((lookupA c st).map W).getD z)
      else ((lookupA c st).map W).getD z := by
  unfold process_record
  rw [lookupA_updateA]
  by_cases h : c = r.county
  · subst h
    simp only [if_pos rfl]
    cases hx : lookupA r.county st with
    | none => simp [hx, hW, hz]
    | some cd => simp [hx, hW]
  · simp [h]

theorem cdRc_step (today : SDate) (r : ParsedRecord) (cd : CountyData) :
    (stepCounty today r cd).record_count = cd.record_count + 1 := rfl

theorem cdInst_step (today : SDate) (r : ParsedRecord) (cd : CountyData) (p : String) :
    ((lookupA p (stepCounty today r cd).instrument_patterns).map (fun i => i.count)).getD 0 =
      ((lookupA p cd.instrument_patterns).map (fun i => i.count)).getD 0 +
        (if p = getPattern r.instrument_number then 1 else 0) := by
  show ((lookupA p (updateA (getPattern r.instrument_number) {}
      (fun info => { exampleStr := r.instrument_number, count := info.count + 1 })
      cd.instrument_patterns)).map (fun i => i.count)).getD 0 = _
  rw [lookupA_updateA]
  by_cases hp : p = getPattern r.instrument_number
  · simp only [if_pos hp, hp, Option.map_some, Option.getD_some]
    cases lookupA (getPattern r.instrument_number) cd.instrument_patterns <;> simp
  · simp [hp]

theorem cdBook_step (today : SDate) (r : ParsedRecord) (cd : CountyData) (b : String) :
    lookupA b (stepCounty today r cd).book_patterns =
      if b = getPattern r.book then
        some (((lookupA b cd.book_patterns).getD {}).add_page r.page)
      else lookupA b cd.book_patterns := by
  show lookupA b (updateA (getPattern r.book) {} (fun bp => bp.add_page r.page)
      cd.book_patterns) = _
  rw [lookupA_updateA]
  by_cases hb : b = getPattern r.book <;> simp [hb]

theorem cdEarliest_step (today : SDate) (r : ParsedRecord) (cd : CountyData) :
    (stepCounty today r cd).date_range.earliest =
      match r.date with
      | none => cd.date_range.earliest
      | some d =>
        if dlt d MIN_DATE ∨ dlt today d then cd.date_range.earliest
        else some (pminD cd.date_range.earliest d) := by
  show (cd.date_range.update today r.date).earliest = _
  cases r.date with
  | none => rfl
  | some d => rw [update_earliest]

theorem cdLatest_step (today : SDate) (r : ParsedRecord) (cd : CountyData) :
    (stepCounty today r cd).date_range.latest =
      match r.date with
      | none => cd.date_range.latest
      | some d =>
        if dlt d MIN_DATE ∨ dlt today d then cd.date_range.latest
        else some (pmaxD cd.date_range.latest d) := by
  show (cd.date_range.update today r.date).latest = _
  cases r.date with
  | none => rfl
  | some d => rw [update_latest]

theorem cdAnoms_step (today : SDate) (r : ParsedRecord) (cd : CountyData) :
    (stepCounty today r cd).date_range.anomalies =
      match r.date with
      | none => cd.date_range.anomalies
      | some d =>
        if dlt d MIN_DATE ∨ dlt today d then sinsert (toIso d) cd.date_range.anomalies
        else cd.date_range.anomalies := by
  show (cd.date_range.update today r.date).anomalies = _
  cases r.date with
  | none => rfl
  | some d => rw [update_anomalies]

theorem cdDoc_step (today : SDate) (r : ParsedRecord) (cd : CountyData) (dt : String) :
    (lookupA dt (stepCounty today r cd).doc_types.counts).getD 0 =
      (lookupA dt cd.doc_types.counts).getD 0 +
        (if dt = r.doc_type ∧ r.doc_type ≠ "" then 1 else 0) := by
  show (lookupA dt (cd.doc_types.add r.doc_type).counts).getD 0 = _
  unfold DocTypeTracker.add
  by_cases he : r.doc_type = ""
  · simp [he]
  · simp only [if_neg he]
    rw [lookupA_updateA]
    by_cases hdt : dt = r.doc_type
    · simp only [if_pos hdt, hdt, Option.getD_some, ne_eq, he, not_false_iff, and_true,
        if_pos rfl]
      cases lookupA r.doc_type cd.doc_types.counts <;> simp
    · simp [hdt]

theorem docAdd_counts (t : DocTypeTracker) (dt : String) (he : dt ≠ "") :
    (t.add dt).counts = updateA dt 0 (· + 1) t.counts := by
  unfold DocTypeTracker.add
  rw [if_neg he]

theorem cdDocKeys_step (today : SDate) (r : ParsedRecord) (cd : CountyData) :
    ((stepCounty today r cd).doc_types.counts.map Prod.fst).toFinset =
      if r.doc_type ≠ "" then insert r.doc_type (cd.doc_types.counts.map Prod.fst).toFinset
      else (cd.doc_types.counts.map Prod.fst).toFinset := by
  show ((cd.doc_types.add r.doc_type).counts.map Prod.fst).toFinset = _
  by_cases he : r.doc_type = ""
  · simp [DocTypeTracker.add, he]
  · rw [docAdd_counts cd.doc_types r.doc_type he, if_pos he]
    rw [keys_updateA]
    by_cases hmem : (lookupA r.doc_type cd.doc_types.counts).isSome
    · simp only [if_pos hmem]
      have hin : r.doc_type ∈ (cd.doc_types.counts.map Prod.fst) := by
        by_contra hno
        rw [← lookupA_eq_none_iff] at hno
        rw [hno] at hmem
        simp at hmem
      rw [Finset.insert_eq_self.2 (List.mem_toFinset.2 hin)]
    · simp only [if_neg hmem]
      rw [List.toFinset_append, Finset.union_comm]
      simp [Finset.insert_eq]

theorem rcView_step (today : SDate) (r : ParsedRecord)
    (st : List (String × CountyData)) (c : String) :
    rcView (process_record today r st) c =
      rcView st c + (if c = r.county then 1 else 0) := by
  unfold rcView
  rw [mapView_process today r st c _ 0 (fun n => n + 1) (fun cd => cdRc_step today r cd) rfl]
  by_cases h : c = r.county <;> simp [h]

theorem instCountView_step (today : SDate) (r : ParsedRecord)
    (st : List (String × CountyData)) (c p : String) :
    instCountView (process_record today r st) c p =
      instCountView st c p +
        (if c = r.county ∧ p = getPattern r.instrument_number then 1 else 0) := by
  unfold instCountView
  rw [mapView_process today r st c _ 0
    (fun n => n + (if p = getPattern r.instrument_number then 1 else 0))
    (fun cd => cdInst_step today r cd p) rfl]
  by_cases h : c = r.county <;> by_cases hp : p = getPattern r.instrument_number <;>
    simp [h, hp]

theorem bookInfoView_step (today : SDate) (r : ParsedRecord)
    (st : List (String × CountyData)) (c b : String) :
    bookInfoView (process_record today r st) c b =
      if c = r.county ∧ b = getPattern r.book then
        some (((bookInfoView st c b).getD {}).add_page r.page)
      else bookInfoView st c b := by
  unfold bookInfoView
  rw [mapView_process today r st c _ none
    (fun o => if b = getPattern r.book then some ((o.getD {}).add_page r.page) else o)
    (fun cd => cdBook_step today r cd b) rfl]
  by_cases h : c = r.county <;> by_cases hb : b = getPattern r.book <;> simp [h, hb]

theorem pageCountView_step (today : SDate) (r : ParsedRecord)
    (st : List (String × CountyData)) (c b p : String) :
    pageCountView (process_record today r st) c b p =
      pageCountView st c b p +
        (if c = r.county ∧ b = getPattern r.book ∧ r.page ≠ "" ∧ p = getPattern r.page
         then 1 else 0) := by
  unfold pageCountView
  rw [bookInfoView_step]
  by_cases h : c = r.county ∧ b = getPattern r.book
  · rw [if_pos h]
    simp only [Option.map_some', Option.getD_some]
    rw [add_page_page_patterns]
    by_cases hpg : r.page = ""
    · rw [if_pos hpg]
      have hcond : ¬(c = r.county ∧ b = getPattern r.book ∧ r.page ≠ "" ∧
          p = getPattern r.page) := by
        intro hx
        exact hx.2.2.1 hpg
      rw [if_neg hcond]
      cases bookInfoView st c b <;> simp [lookupA]
    · rw [if_neg hpg]
      rw [lookupA_updateA]
      by_cases hp : p = getPattern r.page
      · have hcond : c = r.county ∧ b = getPattern r.book ∧ r.page ≠ "" ∧
            p = getPattern r.page := ⟨h.1, h.2, hpg, hp⟩
        rw [if_pos hcond, if_pos hp]
        cases bookInfoView st c b <;> simp [lookupA, hp]
      · have hcond : ¬(c = r.county ∧ b = getPattern r.book ∧ r.page ≠ "" ∧
            p = getPattern r.page) := by
          intro hx
          exact hp hx.2.2.2
        rw [if_neg hcond, if_neg hp]
        cases bookInfoView st c b <;> simp [lookupA]
  · rw [if_neg h]
    have hcond : ¬(c = r.county ∧ b = getPattern r.book ∧ r.page ≠ "" ∧
        p = getPattern r.page) := by
      intro hx
      exact h ⟨hx.1, hx.2.1⟩
    rw [if_neg hcond]
    simp

theorem minPageView_step (today : SDate) (r : ParsedRecord)
    (st : List (String × CountyData)) (c b : String) :
    minPageView (process_record today r st) c b =
      if c = r.county ∧ b = getPattern r.book ∧ r.page ≠ "" ∧
          r.page.data.all Char.isDigit then
        some (ominN (minPageView st c b) (natOfDigits r.page.data))
      else minPageView st c b := by
  unfold minPageView
  rw [bookInfoView_step]
  by_cases h : c = r.county ∧ b = getPattern r.book
  · rw [if_pos h]
    simp only [Option.map_some', Option.getD_some]
    rw [add_page_min_page]
    by_cases hd : r.page ≠ "" ∧ r.page.data.all Char.isDigit
    · have hcond : c = r.county ∧ b = getPattern r.book ∧ r.page ≠ "" ∧
          r.page.data.all Char.isDigit = true := ⟨h.1, h.2, hd.1, hd.2⟩
      rw [if_pos hd, if_pos hcond]
      cases bookInfoView st c b <;> simp [ominN]
    · have hcond : ¬(c = r.county ∧ b = getPattern r.book ∧ r.page ≠ "" ∧
          r.page.data.all Char.isDigit = true) := by
        intro hx
        exact hd ⟨hx.2.2.1, hx.2.2.2⟩
      rw [if_neg hd, if_neg hcond]
      cases bookInfoView st c b <;> simp
  · rw [if_neg h]
    have hcond : ¬(c = r.county ∧ b = getPattern r.book ∧ r.page ≠ "" ∧
        r.page.data.all Char.isDigit = true) := by
      intro hx
      exact h ⟨hx.1, hx.2.1⟩
    rw [if_neg hcond]

theorem maxPageView_step (today : SDate) (r : ParsedRecord)
    (st : List (String × CountyData)) (c b : String) :
    maxPageView (process_record today r st) c b =
      if c = r.county ∧ b = getPattern r.book ∧ r.page ≠ "" ∧
          r.page.data.all Char.isDigit then
        some (omaxN (maxPageView st c b) (natOfDigits r.page.data))
      else maxPageView st c b := by
  unfold maxPageView
  rw [bookInfoView_step]
  by_cases h : c = r.county ∧ b = getPattern r.book
  · rw [if_pos h]
    simp only [Option.map_some', Option.getD_some]
    rw [add_page_max_page]
    by_cases hd : r.page ≠ "" ∧ r.page.data.all Char.isDigit
    · have hcond : c = r.county ∧ b = getPattern r.book ∧ r.page ≠ "" ∧
          r.page.data.all Char.isDigit = true := ⟨h.1, h.2, hd.1, hd.2⟩
      rw [if_pos hd, if_pos hcond]
      cases bookInfoView st c b <;> simp [omaxN]
    · have hcond : ¬(c = r.county ∧ b = getPattern r.book ∧ r.page ≠ "" ∧
          r.page.data.all Char.isDigit = true) := by
        intro hx
        exact hd ⟨hx.2.2.1, hx.2.2.2⟩
      rw [if_neg hd, if_neg hcond]
      cases bookInfoView st c b <;> simp
  · rw [if_neg h]
    have hcond : ¬(c = r.county ∧ b = getPattern r.book ∧ r.page ≠ "" ∧
        r.page.data.all Char.isDigit = true) := by
      intro hx
      exact h ⟨hx.1, hx.2.1⟩
    rw [if_neg hcond]

theorem bookMemView_step (today : SDate) (r : ParsedRecord)
    (st : List (String × CountyData)) (c b : String) :
    bookMemView (process_record today r st) c b =
      if c = r.county ∧ b = getPattern r.book then true else bookMemView st c b := by
  unfold bookMemView
  rw [bookInfoView_step]
  by_cases h : c = r.county ∧ b = getPattern r.book <;> simp [h]

theorem earliestView_step (today : SDate) (r : ParsedRecord)
    (st : List (String × CountyData)) (c : String) :
    earliestView (process_record today r st) c =
      if c = r.county then
        (match r.date with
         | none => earliestView st c
         | some d =>
           if dlt d MIN_DATE ∨ dlt today d then earliestView st c
           else some (pminD (earliestView st c) d))
      else earliestView st c := by
  unfold earliestView
  rw [mapView_process today r st c _ none
    (fun o => match r.date with
      | none => o
      | some d => if dlt d MIN_DATE ∨ dlt today d then o else some (pminD o d))
    (fun cd => cdEarliest_step today r cd) rfl]

theorem latestView_step (today : SDate) (r : ParsedRecord)
    (st : List (String × CountyData)) (c : String) :
    latestView (process_record today r st) c =
      if c = r.county then
        (match r.date with
         | none => latestView st c
         | some d =>
           if dlt d MIN_DATE ∨ dlt today d then latestView st c
           else some (pmaxD (latestView st c) d))
      else latestView st c := by
  unfold latestView
  rw [mapView_process today r st c _ none
    (fun o => match r.date with
      | none => o
      | some d => if dlt d MIN_DATE ∨ dlt today d then o else some (pmaxD o d))
    (fun cd => cdLatest_step today r cd) rfl]

theorem anomaliesView_step (today : SDate) (r : ParsedRecord)
    (st : List (String × CountyData)) (c : String) :
    anomaliesView (process_record today r st) c =
      if c = r.county then
        (match r.date with
         | none => anomaliesView st c
         | some d =>
           if dlt d MIN_DATE ∨ dlt today d then sinsert (toIso d) (anomaliesView st c)
           else anomaliesView st c)
      else anomaliesView st c := by
  unfold anomaliesView
  rw [mapView_process today r st c _ []
    (fun a => match r.date with
      | none => a
      | some d => if dlt d MIN_DATE ∨ dlt today d then sinsert (toIso d) a else a)
    (fun cd => cdAnoms_step today r cd) rfl]

theorem docCountView_step (today : SDate) (r : ParsedRecord)
    (st : List (String × CountyData)) (c dt : String) :
    docCountView (process_record today r st) c dt =
      docCountView st c dt +
        (if c = r.county ∧ dt = r.doc_type ∧ r.doc_type ≠ "" then 1 else 0) := by
  unfold docCountView
  rw [mapView_process today r st c _ 0
    (fun n => n + (if dt = r.doc_type ∧ r.doc_type ≠ "" then 1 else 0))
    (fun cd => cdDoc_step today r cd dt) rfl]
  by_cases h : c = r.county <;> by_cases hd : dt = r.doc_type ∧ r.doc_type ≠ "" <;>
    simp [h, hd, and_assoc]

theorem docKeysView_step (today : SDate) (r : ParsedRecord)
    (st : List (String × CountyData)) (c : String) :
    docKeysView (process_record today r st) c =
      if c = r.county ∧ r.doc_type ≠ "" then insert r.doc_type (docKeysView st c)
      else docKeysView st c := by
  unfold docKeysView
  have hz : (({} : CountyData).doc_types.counts.map Prod.fst).toFinset = (∅ : Finset String) :=
    rfl
  rw [mapView_process today r st c (fun cd => (cd.doc_types.counts.map Prod.fst).toFinset) ∅
    (fun s => if r.doc_type ≠ "" then insert r.doc_type s else s)
    (fun cd => cdDocKeys_step today r cd) hz]
  by_cases h : c = r.county <;> by_cases hd : r.doc_type = "" <;> simp [h, hd]

/-! ## Permutation invariance of each view -/

theorem rcView_perm (today : SDate) {l1 l2 : List ParsedRecord} (hp : l1.Perm l2)
    (c : String) : rcView (runAgg today l1) c = rcView (runAgg today l2) c := by
  unfold runAgg
  rw [foldl_view (fun st r => process_record today r st) (fun st => rcView st c)
      (fun r n => n + (if c = r.county then 1 else 0))
      (fun s r => rcView_step today r s c) l1 []]
  rw [foldl_view (fun st r => process_record today r st) (fun st => rcView st c)
      (fun r n => n + (if c = r.county then 1 else 0))
      (fun s r => rcView_step today r s c) l2 []]
  exact foldl_perm_inv _ (fun b a1 a2 => by omega) hp _

theorem instCountView_perm (today : SDate) {l1 l2 : List ParsedRecord} (hp : l1.Perm l2)
    (c p : String) :
    instCountView (runAgg today l1) c p = instCountView (runAgg today l2) c p := by
  unfold runAgg
  rw [foldl_view (fun st r => process_record today r st) (fun st => instCountView st c p)
      (fun r n => n + (if c = r.county ∧ p = getPattern r.instrument_number then 1 else 0))
      (fun s r => instCountView_step today r s c p) l1 []]
  rw [foldl_view (fun st r => process_record today r st) (fun st => instCountView st c p)
      (fun r n => n + (if c = r.county ∧ p = getPattern r.instrument_number then 1 else 0))
      (fun s r => instCountView_step today r s c p) l2 []]
  exact foldl_perm_inv _ (fun b a1 a2 => by omega) hp _

theorem pageCountView_perm (today : SDate) {l1 l2 : List ParsedRecord} (hp : l1.Perm l2)
    (c b p : String) :
    pageCountView (runAgg today l1) c b p = pageCountView (runAgg today l2) c b p := by
  unfold runAgg
  rw [foldl_view (fun st r => process_record today r st) (fun st => pageCountView st c b p)
      (fun r n => n + (if c = r.county ∧ b = getPattern r.book ∧ r.page ≠ "" ∧
        p = getPattern r.page then 1 else 0))
      (fun s r => pageCountView_step today r s c b p) l1 []]
  rw [foldl_view (fun st r => process_record today r st) (fun st => pageCountView st c b p)
      (fun r n => n + (if c = r.county ∧ b = getPattern r.book ∧ r.page ≠ "" ∧
        p = getPattern r.page then 1 else 0))
      (fun s r => pageCountView_step today r s c b p) l2 []]
  exact foldl_perm_inv _ (fun b' a1 a2 => by omega) hp _

theorem docCountView_perm (today : SDate) {l1 l2 : List ParsedRecord} (hp : l1.Perm l2)
    (c dt : String) :
    docCountView (runAgg today l1) c dt = docCountView (runAgg today l2) c dt := by
  unfold runAgg
  rw [foldl_view (fun st r => process_record today r st) (fun st => docCountView st c dt)
      (fun r n => n + (if c = r.county ∧ dt = r.doc_type ∧ r.doc_type ≠ "" then 1 else 0))
      (fun s r => docCountView_step today r s c dt) l1 []]
  rw [foldl_view (fun st r => process_record today r st) (fun st => docCountView st c dt)
      (fun r n => n + (if c = r.county ∧ dt = r.doc_type ∧ r.doc_type ≠ "" then 1 else 0))
      (fun s r => docCountView_step today r s c dt) l2 []]
  exact foldl_perm_inv _ (fun b a1 a2 => by omega) hp _

theorem bookMemView_perm (today : SDate) {l1 l2 : List ParsedRecord} (hp : l1.Perm l2)
    (c b : String) :
    bookMemView (runAgg today l1) c b = bookMemView (runAgg today l2) c b := by
  unfold runAgg
  rw [foldl_view (fun st r => process_record today r st) (fun st => bookMemView st c b)
      (fun r v => if c = r.county ∧ b = getPattern r.book then true else v)
      (fun s r => bookMemView_step today r s c b) l1 []]
  rw [foldl_view (fun st r => process_record today r st) (fun st => bookMemView st c b)
      (fun r v => if c = r.county ∧ b = getPattern r.book then true else v)
      (fun s r => bookMemView_step today r s c b) l2 []]
  refine foldl_perm_inv _ ?_ hp _
  intro v a1 a2
  by_cases h1 : c = a1.county ∧ b = getPattern a1.book <;>
    by_cases h2 : c = a2.county ∧ b = getPattern a2.book
  · simp only [if_pos h1, if_pos h2]
  · simp only [if_pos h1, if_neg h2]
  · simp only [if_pos h2, if_neg h1]
  · simp only [if_neg h1, if_neg h2]

theorem minPageView_perm (today : SDate) {l1 l2 : List ParsedRecord} (hp : l1.Perm l2)
    (c b : String) :
    minPageView (runAgg today l1) c b = minPageView (runAgg today l2) c b := by
  unfold runAgg
  rw [foldl_view (fun st r => process_record today r st) (fun st => minPageView st c b)
      (fun r o => if c = r.county ∧ b = getPattern r.book ∧ r.page ≠ "" ∧
          r.page.data.all Char.isDigit then some (ominN o (natOfDigits r.page.data)) else o)
      (fun s r => minPageView_step today r s c b) l1 []]
  rw [foldl_view (fun st r => process_record today r st) (fun st => minPageView st c b)
      (fun r o => if c = r.county ∧ b = getPattern r.book ∧ r.page ≠ "" ∧
          r.page.data.all Char.isDigit then some (ominN o (natOfDigits r.page.data)) else o)
      (fun s r => minPageView_step today r s c b) l2 []]
  refine foldl_perm_inv _ ?_ hp _
  intro o a1 a2
  by_cases h1 : c = a1.county ∧ b = getPattern a1.book ∧ a1.page ≠ "" ∧
      a1.page.data.all Char.isDigit <;>
    by_cases h2 : c = a2.county ∧ b = getPattern a2.book ∧ a2.page ≠ "" ∧
      a2.page.data.all Char.isDigit
  · simp only [if_pos h1, if_pos h2]
    rw [ominN_right_comm]
  · simp only [if_pos h1, if_neg h2]
  · simp only [if_pos h2, if_neg h1]
  · simp only [if_neg h1, if_neg h2]

theorem maxPageView_perm (today : SDate) {l1 l2 : List ParsedRecord} (hp : l1.Perm l2)
    (c b : String) :
    maxPageView (runAgg today l1) c b = maxPageView (runAgg today l2) c b := by
  unfold runAgg
  rw [foldl_view (fun st r => process_record today r st) (fun st => maxPageView st c b)
      (fun r o => if c = r.county ∧ b = getPattern r.book ∧ r.page ≠ "" ∧
          r.page.data.all Char.isDigit then some (omaxN o (natOfDigits r.page.data)) else o)
      (fun s r => maxPageView_step today r s c b) l1 []]
  rw [foldl_view (fun st r => process_record today r st) (fun st => maxPageView st c b)
      (fun r o => if c = r.county ∧ b = getPattern r.book ∧ r.page ≠ "" ∧
          r.page.data.all Char.isDigit then some (omaxN o (natOfDigits r.page.data)) else o)
      (fun s r => maxPageView_step today r s c b) l2 []]
  refine foldl_perm_inv _ ?_ hp _
  intro o a1 a2
  by_cases h1 : c = a1.county ∧ b = getPattern a1.book ∧ a1.page ≠ "" ∧
      a1.page.data.all Char.isDigit <;>
    by_cases h2 : c = a2.county ∧ b = getPattern a2.book ∧ a2.page ≠ "" ∧
      a2.page.data.all Char.isDigit
  · simp only [if_pos h1, if_pos h2]
    rw [omaxN_right_comm]
  · simp only [if_pos h1, if_neg h2]
  · simp only [if_pos h2, if_neg h1]
  · simp only [if_neg h1, if_neg h2]

theorem earliestView_perm (today : SDate) {l1 l2 : List ParsedRecord} (hp : l1.Perm l2)
    (c : String) :
    earliestView (runAgg today l1) c = earliestView (runAgg today l2) c := by
  unfold runAgg
  rw [foldl_view (fun st r => process_record today r st) (fun st => earliestView st c)
      (fun r o => if c = r.county then
        (match r.date with
         | none => o
         | some d => if dlt d MIN_DATE ∨ dlt today d then o else some (pminD o d))
        else o)
      (fun s r => earliestView_step today r s c) l1 []]
  rw [foldl_view (fun st r => process_record today r st) (fun st => earliestView st c)
      (fun r o => if c = r.county then
        (match r.date with
         | none => o
         | some d => if dlt d MIN_DATE ∨ dlt today d then o else some (pminD o d))
        else o)
      (fun s r => earliestView_step today r s c) l2 []]
  refine foldl_perm_inv _ ?_ hp _
  intro o a1 a2
  by_cases hc1 : c = a1.county <;> by_cases hc2 : c = a2.county
  · simp only [if_pos hc1, if_pos hc2]
    cases a1.date with
    | none => rfl
    | some d1 =>
      cases a2.date with
      | none => rfl
      | some d2 =>
        by_cases h1 : dlt d1 MIN_DATE ∨ dlt today d1 <;>
          by_cases h2 : dlt d2 MIN_DATE ∨ dlt today d2
        · simp only [if_pos h1, if_pos h2]
        · simp only [if_pos h1, if_neg h2]
        · simp only [if_pos h2, if_neg h1]
        · simp only [if_neg h1, if_neg h2]
          rw [pminD_right_comm]
  · simp only [if_pos hc1, if_neg hc2]
  · simp only [if_pos hc2, if_neg hc1]
  · simp only [if_neg hc1, if_neg hc2]

theorem latestView_perm (today : SDate) {l1 l2 : List ParsedRecord} (hp : l1.Perm l2)
    (c : String) :
    latestView (runAgg today l1) c = latestView (runAgg today l2) c := by
  unfold runAgg
  rw [foldl_view (fun st r => process_record today r st) (fun st => latestView st c)
      (fun r o => if c = r.county then
        (match r.date with
         | none => o
         | some d => if dlt d MIN_DATE ∨ dlt today d then o else some (pmaxD o d))
        else o)
      (fun s r => latestView_step today r s c) l1 []]
  rw [foldl_view (fun st r => process_record today r st) (fun st => latestView st c)
      (fun r o => if c = r.county then
        (match r.date with
         | none => o
         | some d => if dlt d MIN_DATE ∨ dlt today d then o else some (pmaxD o d))
        else o)
      (fun s r => latestView_step today r s c) l2 []]
  refine foldl_perm_inv _ ?_ hp _
  intro o a1 a2
  by_cases hc1 : c = a1.county <;> by_cases hc2 : c = a2.county
  · simp only [if_pos hc1, if_pos hc2]
    cases a1.date with
    | none => rfl
    | some d1 =>
      cases a2.date with
      | none => rfl
      | some d2 =>
        by_cases h1 : dlt d1 MIN_DATE ∨ dlt today d1 <;>
          by_cases h2 : dlt d2 MIN_DATE ∨ dlt today d2
        · simp only [if_pos h1, if_pos h2]
        · simp only [if_pos h1, if_neg h2]
        · simp only [if_pos h2, if_neg h1]
        · simp only [if_neg h1, if_neg h2]
          rw [pmaxD_right_comm]
  · simp only [if_pos hc1, if_neg hc2]
  · simp only [if_pos hc2, if_neg hc1]
  · simp only [if_neg hc1, if_neg hc2]

theorem anomaliesView_perm (today : SDate) {l1 l2 : List ParsedRecord} (hp : l1.Perm l2)
    (c : String) :
    anomaliesView (runAgg today l1) c = anomaliesView (runAgg today l2) c := by
  unfold runAgg
  rw [foldl_view (fun st r => process_record today r st) (fun st => anomaliesView st c)
      (fun r a => if c = r.county then
        (match r.date with
         | none => a
         | some d => if dlt d MIN_DATE ∨ dlt today d then sinsert (toIso d) a else a)
        else a)
      (fun s r => anomaliesView_step today r s c) l1 []]
  rw [foldl_view (fun st r => process_record today r st) (fun st => anomaliesView st c)
      (fun r a => if c = r.county then
        (match r.date with
         | none => a
         | some d => if dlt d MIN_DATE ∨ dlt today d then sinsert (toIso d) a else a)
        else a)
      (fun s r => anomaliesView_step today r s c) l2 []]
  refine foldl_perm_inv _ ?_ hp _
  intro a a1 a2
  by_cases hc1 : c = a1.county <;> by_cases hc2 : c = a2.county
  · simp only [if_pos hc1, if_pos hc2]
    cases a1.date with
    | none => rfl
    | some d1 =>
      cases a2.date with
      | none => rfl
      | some d2 =>
        by_cases h1 : dlt d1 MIN_DATE ∨ dlt today d1 <;>
          by_cases h2 : dlt d2 MIN_DATE ∨ dlt today d2
        · simp only [if_pos h1, if_pos h2]
          rw [sinsert_comm]
        · simp only [if_pos h1, if_neg h2]
        · simp only [if_pos h2, if_neg h1]
        · simp only [if_neg h1, if_neg h2]
  · simp only [if_pos hc1, if_neg hc2]
  · simp only [if_pos hc2, if_neg hc1]
  · simp only [if_neg hc1, if_neg hc2]

theorem docKeysView_perm (today : SDate) {l1 l2 : List ParsedRecord} (hp : l1.Perm l2)
    (c : String) :
    docKeysView (runAgg today l1) c = docKeysView (runAgg today l2) c := by
  unfold runAgg
  rw [foldl_view (fun st r => process_record today r st) (fun st => docKeysView st c)
      (fun r s => if c = r.county ∧ r.doc_type ≠ "" then insert r.doc_type s else s)
      (fun s r => docKeysView_step today r s c) l1 []]
  rw [foldl_view (fun st r => process_record today r st) (fun st => docKeysView st c)
      (fun r s => if c = r.county ∧ r.doc_type ≠ "" then insert r.doc_type s else s)
      (fun s r => docKeysView_step today r s c) l2 []]
  refine foldl_perm_inv _ ?_ hp _
  intro s a1 a2
  by_cases h1 : c = a1.county ∧ a1.doc_type ≠ "" <;>
    by_cases h2 : c = a2.county ∧ a2.doc_type ≠ ""
  · simp only [if_pos h1, if_pos h2]
    rw [Finset.Insert.comm]
  · simp only [if_pos h1, if_neg h2]
  · simp only [if_pos h2, if_neg h1]
  · simp only [if_neg h1, if_neg h2]

theorem run_doc_nodup (today : SDate) (l : List ParsedRecord) :
    ∀ (st : List (String × CountyData)),
      (∀ c cd, lookupA c st = some cd → (cd.doc_types.counts.map Prod.fst).Nodup) →
      ∀ c cd,
        lookupA c (l.foldl (fun st r => process_record today r st) st) = some cd →
        (cd.doc_types.counts.map Prod.fst).Nodup := by
  induction l with
  | nil => intro st h c cd hl; exact h c cd hl
  | cons r rs ih =>
    intro st h
    simp only [List.foldl_cons]
    apply ih
    intro c cd hl
    unfold process_record at hl
    rw [lookupA_updateA] at hl
    by_cases hc : c = r.county
    · rw [if_pos hc] at hl
      injection hl with hl
      subst hl
      have hbase :
          (((lookupA r.county st).getD ({} : CountyData)).doc_types.counts.map
            Prod.fst).Nodup := by
        cases hx : lookupA r.county st with
        | none => simp
        | some cd0 =>
          simpa using h _ _ hx
      show ((((lookupA r.county st).getD {}).doc_types.add r.doc_type).counts.map
        Prod.fst).Nodup
      by_cases he : r.doc_type = ""
      · simpa [DocTypeTracker.add, he] using hbase
      · rw [docAdd_counts _ _ he]
        exact nodup_keys_updateA _ _ _ _ hbase
    · rw [if_neg hc] at hl
      exact h c cd hl

theorem uniqueDocsView_eq_card (today : SDate) (l : List ParsedRecord) (c : String) :
    uniqueDocsView (runAgg today l) c = (docKeysView (runAgg today l) c).card := by
  unfold uniqueDocsView docKeysView
  cases hx : lookupA c (runAgg today l) with
  | none => simp [hx]
  | some cd =>
    have hnd : (cd.doc_types.counts.map Prod.fst).Nodup := by
      apply run_doc_nodup today l [] _ c cd hx
      intro c' cd' h'
      simp [lookupA] at h'
    simp only [hx, Option.map_some', Option.getD_some]
    rw [List.toFinset_card_of_nodup hnd, List.length_map]
    simp [DocTypeTracker.unique_count]

theorem uniqueDocsView_perm (today : SDate) {l1 l2 : List ParsedRecord} (hp : l1.Perm l2)
    (c : String) :
    uniqueDocsView (runAgg today l1) c = uniqueDocsView (runAgg today l2) c := by
  rw [uniqueDocsView_eq_card, uniqueDocsView_eq_card, docKeysView_perm today hp c]

/-! ## The aggregation total invariant -/

/-- Sum of a county's instrument-pattern counts. -/
def sumInstView (st : List (String × CountyData)) (c : String) : Nat :=
  ((lookupA c st).map (fun cd =>
    (cd.instrument_patterns.map (fun q => q.2.count)).sum)).getD 0

theorem sum_counts_updateA (k : String) (ex : String)
    (l : List (String × InstrumentPatternInfo)) :
    ((updateA k {} (fun info => { exampleStr := ex, count := info.count + 1 }) l).map
      (fun q => q.2.count)).sum = (l.map (fun q => q.2.count)).sum + 1 := by
  induction l with
  | nil => simp [updateA]
  | cons hd tl ih =>
    obtain ⟨k', v⟩ := hd
    by_cases hk : k' = k
    · simp only [updateA, if_pos hk, List.map_cons, List.sum_cons]
      omega
    · simp only [updateA, if_neg hk, List.map_cons, List.sum_cons, ih]
      omega

theorem sumInstView_step (today : SDate) (r : ParsedRecord)
    (st : List (String × CountyData)) (c : String) :
    sumInstView (process_record today r st) c =
      sumInstView st c + (if c = r.county then 1 else 0) := by
  unfold sumInstView
  rw [mapView_process today r st c _ 0 (fun n => n + 1)
    (fun cd => sum_counts_updateA (getPattern r.instrument_number) r.instrument_number
      cd.instrument_patterns) rfl]
  by_cases h : c = r.county <;> simp [h]

theorem sumInst_eq_rc (today : SDate) (l : List ParsedRecord) (c : String) :
    sumInstView (runAgg today l) c = rcView (runAgg today l) c := by
  unfold runAgg
  rw [foldl_view (fun st r => process_record today r st) (fun st => sumInstView st c)
      (fun r n => n + (if c = r.county then 1 else 0))
      (fun s r => sumInstView_step today r s c) l []]
  rw [foldl_view (fun st r => process_record today r st) (fun st => rcView st c)
      (fun r n => n + (if c = r.county then 1 else 0))
      (fun s r => rcView_step today r s c) l []]
  rfl

theorem run_inst_sum (today : SDate) (l : List ParsedRecord) (c : String)
    (cd : CountyData) (h : lookupA c (runAgg today l) = some cd) :
    (cd.instrument_patterns.map (fun q => q.2.count)).sum = cd.record_count := by
  have h1 := sumInst_eq_rc today l c
  unfold sumInstView rcView at h1
  rw [h] at h1
  simpa using h1

/-! ## Bounds for the round-half-even percentage -/

theorem rheF_err (a b : ℤ) (hb : 0 < b) :
    |(roundHalfEvenFrac a b : ℚ) - (a : ℚ) / (b : ℚ)| ≤ 1 / 2 := by
  have hbQ : (0 : ℚ) < (b : ℚ) := by exact_mod_cast hb
  have hbne : (b : ℚ) ≠ 0 := ne_of_gt hbQ
  have hr0 : 0 ≤ a % b := Int.emod_nonneg a (ne_of_gt hb)
  have hrb : a % b < b := Int.emod_lt_of_pos a hb
  have hsum : b * (a / b) + a % b = a := Int.ediv_add_emod a b
  have key : (a : ℚ) / b - ((a / b : ℤ) : ℚ) = ((a % b : ℤ) : ℚ) / b := by
    have hsumQ : ((b : ℚ)) * ((a / b : ℤ) : ℚ) + ((a % b : ℤ) : ℚ) = (a : ℚ) := by
      exact_mod_cast congrArg (fun z : ℤ => (z : ℚ)) hsum
    field_simp
    linarith
  have hrQ0 : (0 : ℚ) ≤ ((a % b : ℤ) : ℚ) := by exact_mod_cast hr0
  have hrQb : ((a % b : ℤ) : ℚ) < b := by exact_mod_cast hrb
  show |((if 2 * (a % b) < b then a / b
      else if b < 2 * (a % b) then a / b + 1
      else if (a / b) % 2 = 0 then a / b else a / b + 1 : ℤ) : ℚ) - (a : ℚ) / b| ≤ 1 / 2
  split_ifs with h1 h2 h3
  · rw [abs_sub_comm, key, abs_of_nonneg (div_nonneg hrQ0 (le_of_lt hbQ))]
    rw [div_le_iff₀ hbQ]
    have h1Q : ((2 * (a % b) : ℤ) : ℚ) ≤ ((b : ℤ) : ℚ) := by exact_mod_cast le_of_lt h1
    push_cast at h1Q
    linarith
  · have hd : ((a / b + 1 : ℤ) : ℚ) - (a : ℚ) / b = 1 - ((a % b : ℤ) : ℚ) / b := by
      have hq : (a : ℚ) / b = ((a / b : ℤ) : ℚ) + ((a % b : ℤ) : ℚ) / b := by
        rw [← key]; ring
      rw [hq]
      push_cast
      ring
    rw [hd]
    have hx : ((a % b : ℤ) : ℚ) / b ≤ 1 := by
      rw [div_le_one hbQ]
      linarith
    have hy : 1 / 2 ≤ ((a % b : ℤ) : ℚ) / b := by
      rw [div_le_div_iff₀ (by norm_num) hbQ]
      have h2Q : (b : ℚ) < 2 * ((a % b : ℤ) : ℚ) := by exact_mod_cast h2
      linarith
    rw [abs_of_nonneg (by linarith)]
    linarith
  · have htie : 2 * (a % b) = b := by omega
    rw [abs_sub_comm, key, abs_of_nonneg (div_nonneg hrQ0 (le_of_lt hbQ))]
    rw [div_le_iff₀ hbQ]
    have htQ : (2 * ((a % b : ℤ) : ℚ)) = b := by exact_mod_cast htie
    linarith
  · have htie : 2 * (a % b) = b := by omega
    have hd : ((a / b + 1 : ℤ) : ℚ) - (a : ℚ) / b = 1 - ((a % b : ℤ) : ℚ) / b := by
      have hq : (a : ℚ) / b = ((a / b : ℤ) : ℚ) + ((a % b : ℤ) : ℚ) / b := by
        rw [← key]; ring
      rw [hq]
      push_cast
      ring
    rw [hd]
    have hx : ((a % b : ℤ) : ℚ) / b ≤ 1 := by
      rw [div_le_one hbQ]
      linarith
    have hy : 1 / 2 ≤ ((a % b : ℤ) : ℚ) / b := by
      rw [div_le_div_iff₀ (by norm_num) hbQ]
      have htQ : (2 * ((a % b : ℤ) : ℚ)) = b := by exact_mod_cast htie
      linarith
    rw [abs_of_nonneg (by linarith)]
    linarith

theorem rheF_nonneg (a b : ℤ) (ha : 0 ≤ a) (hb : 0 < b) : 0 ≤ roundHalfEvenFrac a b := by
  have hn : 0 ≤ a / b := Int.ediv_nonneg ha (le_of_lt hb)
  show (0 : ℤ) ≤ if 2 * (a % b) < b then a / b
      else if b < 2 * (a % b) then a / b + 1
      else if (a / b) % 2 = 0 then a / b else a / b + 1
  split_ifs <;> omega

theorem rheF_le (a b m : ℤ) (hb : 0 < b) (h : a ≤ m * b) : roundHalfEvenFrac a b ≤ m := by
  have hr0 : 0 ≤ a % b := Int.emod_nonneg a (ne_of_gt hb)
  have hrb : a % b < b := Int.emod_lt_of_pos a hb
  have hsum : b * (a / b) + a % b = a := Int.ediv_add_emod a b
  have hediv : a / b ≤ m := by
    by_contra hcon
    push_neg at hcon
    have h1 : m + 1 ≤ a / b := hcon
    have h2 : (m + 1) * b ≤ (a / b) * b :=
      mul_le_mul_of_nonneg_right h1 (le_of_lt hb)
    nlinarith
  show (if 2 * (a % b) < b then a / b
      else if b < 2 * (a % b) then a / b + 1
      else if (a / b) % 2 = 0 then a / b else a / b + 1) ≤ m
  split_ifs with h1 h2 h3
  · exact hediv
  · by_contra hcon
    push_neg at hcon
    have hq : a / b = m := by omega
    have : b * m + a % b = a := by rw [← hq]; exact hsum
    nlinarith
  · exact hediv
  · by_contra hcon
    push_neg at hcon
    have hq : a / b = m := by omega
    have : b * m + a % b = a := by rw [← hq]; exact hsum
    nlinarith

theorem pyRound2_err (x : ℚ) : |pyRound2 x - x| ≤ 1 / 200 := by
  have hden : (0 : ℤ) < (x.den : ℤ) := by exact_mod_cast x.pos
  have h := rheF_err (100 * x.num) (x.den : ℤ) hden
  have hx : ((100 * x.num : ℤ) : ℚ) / ((x.den : ℤ) : ℚ) = 100 * x := by
    push_cast
    rw [mul_div_assoc, Rat.num_div_den]
  rw [hx] at h
  unfold pyRound2
  rw [Rat.divInt_eq_div]
  push_cast
  have heq : (roundHalfEvenFrac (100 * x.num) (x.den : ℤ) : ℚ) / 100 - x =
      ((roundHalfEvenFrac (100 * x.num) (x.den : ℤ) : ℚ) - 100 * x) / 100 := by
    ring
  rw [heq, abs_div, abs_of_pos (show (0 : ℚ) < 100 by norm_num)]
  linarith

theorem pyRound2_nonneg (x : ℚ) (hx : 0 ≤ x) : 0 ≤ pyRound2 x := by
  have hden : (0 : ℤ) < (x.den : ℤ) := by exact_mod_cast x.pos
  have hnum : 0 ≤ x.num := Rat.num_nonneg.2 hx
  have h := rheF_nonneg (100 * x.num) (x.den : ℤ) (by positivity) hden
  unfold pyRound2
  rw [Rat.divInt_eq_div]
  positivity

theorem pyRound2_le_100 (x : ℚ) (hx : x ≤ 100) : pyRound2 x ≤ 100 := by
  have hden : (0 : ℤ) < (x.den : ℤ) := by exact_mod_cast x.pos
  have hnum : 100 * x.num ≤ 10000 * (x.den : ℤ) := by
    have h1 : (x.num : ℚ) ≤ 100 * (x.den : ℚ) := by
      have h2 : (x.num : ℚ) / (x.den : ℚ) ≤ 100 := by
        rw [Rat.num_div_den]
        exact hx
      have hdQ : (0 : ℚ) < (x.den : ℚ) := by exact_mod_cast x.pos
      rw [div_le_iff₀ hdQ] at h2
      linarith
    have h3 : x.num ≤ 100 * (x.den : ℤ) := by exact_mod_cast h1
    linarith
  have h := rheF_le (100 * x.num) (x.den : ℤ) 10000 hden (by linarith)
  unfold pyRound2
  rw [Rat.divInt_eq_div]
  push_cast
  rw [div_le_iff₀ (show (0 : ℚ) < 100 by norm_num)]
  have : (roundHalfEvenFrac (100 * x.num) (x.den : ℤ) : ℚ) ≤ 10000 := by exact_mod_cast h
  linarith

/-! ## Sorting permutes, sums are preserved -/

theorem insertDesc_perm {α : Type} (key : α → Nat) (a : α) (l : List α) :
    (insertDesc key a l).Perm (a :: l) := by
  induction l with
  | nil => exact List.Perm.refl _
  | cons b bs ih =>
    by_cases h : key a < key b
    · simp only [insertDesc, if_pos h]
      exact (ih.cons b).trans (List.Perm.swap a b bs)
    · simp only [insertDesc, if_neg h]
      exact List.Perm.refl _

theorem sortDescBy_perm {α : Type} (key : α → Nat) (l : List α) :
    (sortDescBy key l).Perm l := by
  induction l with
  | nil => exact List.Perm.refl _
  | cons a t ih => exact (insertDesc_perm key a (sortDescBy key t)).trans (ih.cons a)

theorem sum_map_cast (l : List Nat) :
    ((l.sum : Nat) : ℚ) = (l.map (fun (c : Nat) => (c : ℚ))).sum := by
  induction l with
  | nil => simp
  | cons a t ih =>
    rw [List.map_cons, List.sum_cons, List.sum_cons, Nat.cast_add, ih]

theorem sum_pct_factor (T : ℚ) (l : List Nat) :
    (l.map (fun (c : Nat) => 100 * (c : ℚ) / T)).sum =
      100 * ((l.map (fun (c : Nat) => (c : ℚ))).sum) / T := by
  induction l with
  | nil => simp
  | cons a t ih =>
    simp only [List.map_cons, List.sum_cons, ih]
    ring

theorem sum_true_pct (l : List Nat) (T : ℚ) (hT : T ≠ 0)
    (hsum : ((l.sum : Nat) : ℚ) = T) :
    (l.map (fun (c : Nat) => 100 * (c : ℚ) / T)).sum = 100 := by
  rw [sum_pct_factor, ← sum_map_cast, hsum]
  field_simp

theorem sum_abs_err (l : List Nat) (f g : Nat → ℚ)
    (hb : ∀ c ∈ l, |f c - g c| ≤ 1 / 200) :
    |(l.map f).sum - (l.map g).sum| ≤ (l.length : ℚ) / 200 := by
  induction l with
  | nil => simp
  | cons a t ih =>
    simp only [List.map_cons, List.sum_cons, List.length_cons]
    have h1 := hb a (by simp)
    have h2 := ih (fun c hc => hb c (by simp [hc]))
    have hr : f a + (t.map f).sum - (g a + (t.map g).sum) =
        (f a - g a) + ((t.map f).sum - (t.map g).sum) := by ring
    rw [hr]
    have h3 := abs_add (f a - g a) ((t.map f).sum - (t.map g).sum)
    have h4 : ((t.length + 1 : ℕ) : ℚ) = (t.length : ℚ) + 1 := by push_cast; ring
    rw [h4]
    calc |(f a - g a) + ((t.map f).sum - (t.map g).sum)|
        ≤ |f a - g a| + |(t.map f).sum - (t.map g).sum| := h3
      _ ≤ 1 / 200 + (t.length : ℚ) / 200 := add_le_add h1 h2
      _ = ((t.length : ℚ) + 1) / 200 := by ring

theorem count_le_total (today : SDate) (l : List ParsedRecord) (c : String)
    (cd : CountyData) (h : lookupA c (runAgg today l) = some cd)
    (q : String × InstrumentPatternInfo) (hq : q ∈ cd.instrument_patterns) :
    q.2.count ≤ cd.record_count := by
  have hsum := run_inst_sum today l c cd h
  have hle : q.2.count ≤ (cd.instrument_patterns.map (fun q => q.2.count)).sum :=
    List.single_le_sum (by intro x hx; exact Nat.zero_le x) _ (List.mem_map_of_mem _ hq)
  omega

/-! ## The stemmer's rule search: first match in table order equals
longest match among the applicable rules -/

theorem endsWithL_iff (s suf : List Char) : endsWithL s suf = true ↔ suf <:+ s := by
  unfold endsWithL
  simp only [Bool.and_eq_true, decide_eq_true_eq, beq_iff_eq]
  constructor
  · rintro ⟨hlen, hdrop⟩
    rw [List.suffix_iff_eq_drop]
    exact hdrop.symm
  · intro h
    exact ⟨h.length_le, (List.suffix_iff_eq_drop.mp h).symm⟩

/-- One fold step of the longest-matching-rule selection: keep the
incumbent unless the new rule matches with a strictly longer suffix. -/
def pickRule (w : List Char) (acc : Option (String × String)) (r : String × String) :
    Option (String × String) :=
  if endsWithL w r.1.data && 3 ≤ w.length - r.1.data.length then
    match acc with
    | none => some r
    | some r' => if r'.1.length < r.1.length then some r else some r'
  else acc

/-- Modelled from the spec's wording of the stemmer (step 7 of the
pipeline): the longest-matching suffix rule of the table, applicable
only when at least 3 characters of stem remain. -/
def bestRuleGo (w : List Char) (rules : List (String × String)) : Option (String × String) :=
  rules.foldl (pickRule w) none

theorem pickRule_keep (w : List Char) (r : String × String) (l : List (String × String))
    (h : ∀ r' ∈ l, (endsWithL w r'.1.data && 3 ≤ w.length - r'.1.data.length) = true →
      r'.1.length ≤ r.1.length) :
    l.foldl (pickRule w) (some r) = some r := by
  induction l with
  | nil => rfl
  | cons r' rs ih =>
    simp only [List.foldl_cons]
    have step : pickRule w (some r) r' = some r := by
      unfold pickRule
      by_cases hm : (endsWithL w r'.1.data && 3 ≤ w.length - r'.1.data.length) = true
      · rw [if_pos hm]
        have hle := h r' (by simp) hm
        show (if r.1.length < r'.1.length then some r' else some r) = some r
        rw [if_neg (by omega)]
      · rw [if_neg hm]
    rw [step]
    exact ih (fun r'' hr'' hm => h r'' (by simp [hr'']) hm)

theorem find_eq_best_aux (w : List Char) :
    ∀ rules : List (String × String),
      List.Pairwise (fun r r' =>
        (endsWithL w r.1.data && 3 ≤ w.length - r.1.data.length) = true →
        (endsWithL w r'.1.data && 3 ≤ w.length - r'.1.data.length) = true →
        r'.1.length ≤ r.1.length) rules →
      findRuleGo w rules = bestRuleGo w rules := by
  intro rules
  induction rules with
  | nil => intro _; rfl
  | cons r rs ih =>
    intro hp
    rw [List.pairwise_cons] at hp
    obtain ⟨hr, hrs⟩ := hp
    obtain ⟨suf, rep⟩ := r
    by_cases hm : (endsWithL w suf.data && 3 ≤ w.length - suf.data.length) = true
    · unfold findRuleGo bestRuleGo
      rw [if_pos hm]
      simp only [List.foldl_cons]
      have hstep : pickRule w none (suf, rep) = some (suf, rep) := by
        unfold pickRule
        rw [if_pos hm]
      rw [hstep]
      exact (pickRule_keep w (suf, rep) rs (fun r' hr' hm' => hr r' hr' hm hm')).symm
    · unfold findRuleGo bestRuleGo
      rw [if_neg hm]
      simp only [List.foldl_cons]
      have hstep : pickRule w none (suf, rep) = none := by
        unfold pickRule
        rw [if_neg hm]
      rw [hstep]
      exact ih hrs

theorem stem_rules_pairwise (w : List Char) :
    List.Pairwise (fun r r' =>
      (endsWithL w r.1.data && 3 ≤ w.length - r.1.data.length) = true →
      (endsWithL w r'.1.data && 3 ≤ w.length - r'.1.data.length) = true →
      r'.1.length ≤ r.1.length) STEM_RULES := by
  unfold STEM_RULES
  repeat' constructor
  all_goals intro r' hr'
  all_goals fin_cases hr' <;>
    first
      | (intro _ _; decide)
      | (intro h1 h2;
         rw [Bool.and_eq_true] at h1 h2;
         have hs1 := (endsWithL_iff _ _).1 h1.1;
         have hs2 := (endsWithL_iff _ _).1 h2.1;
         exact absurd (List.suffix_of_suffix_length_le hs1 hs2 (by decide)) (by decide))

theorem findRule_eq_bestRule (w : List Char) :
    findRuleGo w STEM_RULES = bestRuleGo w STEM_RULES :=
  find_eq_best_aux w STEM_RULES (stem_rules_pairwise w)

/-- Modelled from the spec's wording of stem_word (claim C7): protected
or short tokens unchanged; else the longest-matching suffix rule with a
stem of at least 3 characters; else strip one trailing S when not
preceded by an S and the token is longer than 4; else unchanged. -/
def stem_word_spec (word : String) : String :=
  if word ∈ STEM_PROTECT ∨ word.length ≤ 4 then word
  else
    match bestRuleGo word.data STEM_RULES with
    | some (suf, rep) =>
      (⟨word.data.take (word.data.length - suf.data.length)⟩ : String) ++ rep
    | none =>
      if endsWithL word.data ['S'] && !endsWithL word.data ['S', 'S'] && 4 < word.length then
        ⟨word.data.dropLast⟩
      else word

/-! ## Run lemmas for the fingerprinter -/

theorem go_accum (k : RunKind) : ∀ (run : List Char) (n : Nat) (rest : List Char),
    (∀ c ∈ run, kindOf? c = some k) →
    (∀ c, rest.head? = some c → kindOf? c ≠ some k) →
    getPatternGo (some (k, n)) (run ++ rest) =
      runTok k (n + run.length) ++ getPatternGo none rest := by
  intro run
  induction run with
  | nil =>
    intro n rest _ hrest
    simp only [List.nil_append, List.length_nil, Nat.add_zero]
    cases rest with
    | nil => simp [getPatternGo]
    | cons c cs =>
      cases hk : kindOf? c with
      | none => simp [getPatternGo, hk]
      | some k' =>
        have hne : k' ≠ k := by
          intro he
          exact hrest c rfl (by rw [hk, he])
        simp [getPatternGo, hk, hne, Ne.symm hne]
  | cons c cs ih =>
    intro n rest hrun hrest
    have hc : kindOf? c = some k := hrun c (by simp)
    simp only [List.cons_append]
    rw [show getPatternGo (some (k, n)) (c :: (cs ++ rest)) =
        getPatternGo (some (k, n + 1)) (cs ++ rest) from by simp [getPatternGo, hc]]
    rw [ih (n + 1) rest (fun c' h' => hrun c' (by simp [h'])) hrest]
    have harith : n + 1 + cs.length = n + (c :: cs).length := by
      simp [List.length_cons]
      omega
    rw [harith]

theorem getPatternGo_run (k : RunKind) (run rest : List Char) (hne : run ≠ [])
    (hrun : ∀ c ∈ run, kindOf? c = some k)
    (hrest : ∀ c, rest.head? = some c → kindOf? c ≠ some k) :
    getPatternGo none (run ++ rest) = runTok k run.length ++ getPatternGo none rest := by
  cases run with
  | nil => exact absurd rfl hne
  | cons c cs =>
    have hc : kindOf? c = some k := hrun c (by simp)
    simp only [List.cons_append]
    rw [show getPatternGo none (c :: (cs ++ rest)) =
        getPatternGo (some (k, 1)) (cs ++ rest) from by simp [getPatternGo, hc]]
    rw [go_accum k cs 1 rest (fun c' h' => hrun c' (by simp [h'])) hrest]
    have harith : 1 + cs.length = (c :: cs).length := by
      simp [List.length_cons]
      omega
    rw [harith]

theorem getPatternGo_other (c : Char) (s : List Char) (h : kindOf? c = none) :
    getPatternGo none (c :: s) = c :: getPatternGo none s := by
  simp [getPatternGo, h]

/-! # Claim theorems -/

/-- C2: the canonicalizer collapses spelling, order and abbreviation
variants to one key: normalize of "DEED OF TRUST", "TRUST DEED" and
"D/T" all return the same string "DEED TRUST". -/
theorem C2_canonicalizer_collapses_variants :
    Classifier.normalize "DEED OF TRUST" = "DEED TRUST" ∧
    Classifier.normalize "TRUST DEED" = "DEED TRUST" ∧
    Classifier.normalize "D/T" = "DEED TRUST" :=
  ⟨by decide, by decide, by decide⟩

/-- C3: the fingerprinter maps every string to its structural shape:
each maximal digit, lowercase and uppercase run becomes its class token
with the run length (the three RunKind values correspond to the three
regex alternatives); every other character passes through unchanged and
is never merged into a run; the two example fingerprints match the
spec; and the map is deterministic, being a pure function. -/
theorem C3_fingerprint_shape :
    getPattern "2023-0012345" = "\\d{4}-\\d{7}" ∧
    getPattern "AB-12" = "\\u{2}-\\d{2}" ∧
    (∀ s t : String, s = t → getPattern s = getPattern t) ∧
    (∀ (k : RunKind) (run rest : List Char), run ≠ [] →
      (∀ c ∈ run, kindOf? c = some k) →
      (∀ c, rest.head? = some c → kindOf? c ≠ some k) →
      getPatternGo none (run ++ rest) = runTok k run.length ++ getPatternGo none rest) ∧
    (∀ (c : Char) (s : List Char), kindOf? c = none →
      getPatternGo none (c :: s) = c :: getPatternGo none s) :=
  ⟨by decide, by decide, fun s t h => congrArg getPattern h,
    fun k run rest h1 h2 h3 => getPatternGo_run k run rest h1 h2 h3,
    fun c s h => getPatternGo_other c s h⟩

/-- C3 witness: the run lemma applied to the concrete digit run 77
followed by a dash, with the token evaluated. -/
theorem C3_fingerprint_shape_witness :
    getPatternGo none (['7', '7'] ++ ['-']) =
      runTok RunKind.dig 2 ++ getPatternGo none ['-'] ∧
    runTok RunKind.dig 2 ++ getPatternGo none ['-'] = "\\d{2}-".data := by
  constructor
  · have h := C3_fingerprint_shape.2.2.2.1 RunKind.dig ['7', '7'] ['-']
      (by decide) (by decide)
      (by
        intro c hc
        injection hc with hc
        subst hc
        decide)
    simpa using h
  · decide

/-- C4: after processing any finite record sequence, the sum of every
county's instrument-pattern counts equals its record_count; stated both
through the total views (0 = 0 for untouched counties) and for every
county bucket present in the final table. -/
theorem C4_aggregation_total :
    (∀ (today : SDate) (l : List ParsedRecord) (c : String),
      sumInstView (runAgg today l) c = rcView (runAgg today l) c) ∧
    (∀ (today : SDate) (l : List ParsedRecord) (c : String) (cd : CountyData),
      lookupA c (runAgg today l) = some cd →
      (cd.instrument_patterns.map (fun q => q.2.count)).sum = cd.record_count) :=
  ⟨fun today l c => sumInst_eq_rc today l c,
    fun today l c cd h => run_inst_sum today l c cd h⟩

/-- C4 witness: the total invariant on a concrete two-record run, with
the views evaluated. -/
theorem C4_aggregation_total_witness :
    sumInstView (runAgg ⟨2026, 1, 1⟩
      [⟨"A", "1234", "", "", none, ""⟩, ⟨"A", "", "", "", none, ""⟩]) "A" =
      rcView (runAgg ⟨2026, 1, 1⟩
        [⟨"A", "1234", "", "", none, ""⟩, ⟨"A", "", "", "", none, ""⟩]) "A" ∧
    rcView (runAgg ⟨2026, 1, 1⟩
      [⟨"A", "1234", "", "", none, ""⟩, ⟨"A", "", "", "", none, ""⟩]) "A" = 2 :=
  ⟨C4_aggregation_total.1 ⟨2026, 1, 1⟩
      [⟨"A", "1234", "", "", none, ""⟩, ⟨"A", "", "", "", none, ""⟩] "A",
    by decide⟩

/-- C6 counterexample: canonicalization is not idempotent.  "SUBING"
stems to the token "SUB", and re-normalizing re-expands the
abbreviation "SUB" to "SUBORDINATION". -/
theorem C6_counterexample_subing :
    Classifier.normalize (Classifier.normalize "SUBING") ≠
      Classifier.normalize "SUBING" ∧
    Classifier.normalize "SUBING" = "SUB" ∧
    Classifier.normalize "SUB" = "SUBORDINATION" :=
  ⟨by decide, by decide, by decide⟩

set_option maxRecDepth 8192 in
/-- C6 (amended): re-normalizing stays stable on the canonical form of
every target phrase of the abbreviation table: for each target t of
ABBREVIATIONS, normalize t is its canonical key and renormalizing
yields the same string, verified exhaustively over the whole table;
idempotence fails in general because a canonical output can itself be
an abbreviation key (see the counterexample for normalize "SUBING"). -/
theorem C6_amended_stability_on_canonical_keys :
    ∀ t ∈ ABBREVIATIONS.map (fun p => p.2),
      Classifier.normalize (Classifier.normalize t) = Classifier.normalize t := by
  decide

/-- C6 witness: stability on the target phrase of "D/T", whose
canonical form is the spec's flagship key "DEED TRUST". -/
theorem C6_amended_stability_witness :
    Classifier.normalize (Classifier.normalize "DEED TRUST") =
      Classifier.normalize "DEED TRUST" :=
  C6_amended_stability_on_canonical_keys "DEED TRUST" (by decide)

/-- C7: stem_word implements exactly the spec's stemming rule:
unchanged for protected or short tokens, else the longest-matching
suffix rule of the ordered table subject to a remaining stem of at
least 3 characters, else a single trailing S is stripped when the token
does not end in SS and is longer than 4, else unchanged
(stem_word_spec is the spec-worded function; the table's order makes
the first applicable rule the longest applicable one). -/
theorem C7_stemming_rule : ∀ w : String, stem_word w = stem_word_spec w := by
  intro w
  unfold stem_word stem_word_spec
  rw [findRule_eq_bestRule]

/-- C5: the DateRange update rule.  A null date changes nothing; a date
before 1900-01-01 or after today goes into the anomalies set as its
literal ISO string with both bounds untouched; otherwise the date folds
into earliest (min) and latest (max), the first in-range date seeding
both (pminD and pmaxD fold an optional stored bound exactly as the
filtered Python min and max do).  Consequently earliest never increases
and latest never decreases, and the three-date scenario of the spec
produces earliest 2019-05-05, latest 2020-01-01 and the single anomaly
string "1899-12-31" whenever today is no earlier than 2020-01-01. -/
theorem C5_date_range_update :
    (∀ (today : SDate) (dr : DateRange), DateRange.update today dr none = dr) ∧
    (∀ (today : SDate) (dr : DateRange) (d : SDate),
      (dlt d MIN_DATE ∨ dlt today d) →
      DateRange.update today dr (some d) =
        { dr with anomalies := sinsert (toIso d) dr.anomalies }) ∧
    (∀ (today : SDate) (dr : DateRange) (d : SDate),
      ¬ (dlt d MIN_DATE ∨ dlt today d) →
      (DateRange.update today dr (some d)).earliest = some (pminD dr.earliest d) ∧
      (DateRange.update today dr (some d)).latest = some (pmaxD dr.latest d) ∧
      (DateRange.update today dr (some d)).anomalies = dr.anomalies) ∧
    (∀ (today : SDate) (dr : DateRange) (date : Option SDate) (e : SDate),
      dr.earliest = some e →
      ∃ e', (DateRange.update today dr date).earliest = some e' ∧ dle e' e) ∧
    (∀ (today : SDate) (dr : DateRange) (date : Option SDate) (lt : SDate),
      dr.latest = some lt →
      ∃ lt', (DateRange.update today dr date).latest = some lt' ∧ dle lt lt') ∧
    (∀ today : SDate, dle ⟨2020, 1, 1⟩ today →
      ((({} : DateRange).update today (some ⟨2020, 1, 1⟩)).update today
          (some ⟨1899, 12, 31⟩)).update today (some ⟨2019, 5, 5⟩) =
        { earliest := some ⟨2019, 5, 5⟩, latest := some ⟨2020, 1, 1⟩,
          anomalies := ["1899-12-31"] } ∧
      toIso ⟨2019, 5, 5⟩ = "2019-05-05" ∧ toIso ⟨2020, 1, 1⟩ = "2020-01-01") := by
  refine ⟨fun today dr => rfl, ?_, ?_, ?_, ?_, ?_⟩
  · intro today dr d h
    simp only [DateRange.update]
    rw [if_pos h]
  · intro today dr d h
    exact ⟨by rw [update_earliest, if_neg h], by rw [update_latest, if_neg h],
      by rw [update_anomalies, if_neg h]⟩
  · intro today dr date e he
    cases date with
    | none => exact ⟨e, he, dle_refl e⟩
    | some d =>
      by_cases h : dlt d MIN_DATE ∨ dlt today d
      · exact ⟨e, by rw [update_earliest, if_pos h]; exact he, dle_refl e⟩
      · refine ⟨pminD dr.earliest d, by rw [update_earliest, if_neg h], ?_⟩
        rw [he]
        exact dle_pminD e d
  · intro today dr date lt hl
    cases date with
    | none => exact ⟨lt, hl, dle_refl lt⟩
    | some d =>
      by_cases h : dlt d MIN_DATE ∨ dlt today d
      · exact ⟨lt, by rw [update_latest, if_pos h]; exact hl, dle_refl lt⟩
      · refine ⟨pmaxD dr.latest d, by rw [update_latest, if_neg h], ?_⟩
        rw [hl]
        exact dle_pmaxD lt d
  · intro today h
    have h1 : ¬ (dlt (⟨2020, 1, 1⟩ : SDate) MIN_DATE ∨ dlt today ⟨2020, 1, 1⟩) := by
      rintro (hx | hx)
      · exact absurd hx (by decide)
      · exact not_dlt_of_dle h hx
    have h2 : dlt (⟨1899, 12, 31⟩ : SDate) MIN_DATE ∨ dlt today ⟨1899, 12, 31⟩ :=
      Or.inl (by decide)
    have h3 : ¬ (dlt (⟨2019, 5, 5⟩ : SDate) MIN_DATE ∨ dlt today ⟨2019, 5, 5⟩) := by
      rintro (hx | hx)
      · exact absurd hx (by decide)
      · exact absurd (dlt_of_dle_of_dlt h hx) (by decide)
    have s1 : ({} : DateRange).update today (some ⟨2020, 1, 1⟩) =
        { earliest := some ⟨2020, 1, 1⟩, latest := some ⟨2020, 1, 1⟩, anomalies := [] } := by
      simp only [DateRange.update]
      rw [if_neg h1]
    have s2 : (⟨some ⟨2020, 1, 1⟩, some ⟨2020, 1, 1⟩, []⟩ : DateRange).update today
        (some ⟨1899, 12, 31⟩) =
        ⟨some ⟨2020, 1, 1⟩, some ⟨2020, 1, 1⟩, ["1899-12-31"]⟩ := by
      simp only [DateRange.update]
      rw [if_pos h2]
      decide
    have s3 : (⟨some ⟨2020, 1, 1⟩, some ⟨2020, 1, 1⟩, ["1899-12-31"]⟩ : DateRange).update
        today (some ⟨2019, 5, 5⟩) =
        ⟨some ⟨2019, 5, 5⟩, some ⟨2020, 1, 1⟩, ["1899-12-31"]⟩ := by
      simp only [DateRange.update]
      rw [if_neg h3]
      decide
    rw [s1, s2, s3]
    exact ⟨rfl, by decide, by decide⟩

/-- C5 witness: the scenario instantiated at the concrete date
2026-10-12 for today, with the hypothesis decided. -/
theorem C5_date_range_update_witness :
    ((({} : DateRange).update ⟨2026, 10, 12⟩ (some ⟨2020, 1, 1⟩)).update ⟨2026, 10, 12⟩
        (some ⟨1899, 12, 31⟩)).update ⟨2026, 10, 12⟩ (some ⟨2019, 5, 5⟩) =
      { earliest := some ⟨2019, 5, 5⟩, latest := some ⟨2020, 1, 1⟩,
        anomalies := ["1899-12-31"] } ∧
    toIso ⟨2019, 5, 5⟩ = "2019-05-05" ∧ toIso ⟨2020, 1, 1⟩ = "2020-01-01" :=
  C5_date_range_update.2.2.2.2.2 ⟨2026, 10, 12⟩ (by decide)

/-- C9 counterexample: a record with an empty doc_type increments no
doc-type counter at all (the counter of its raw doc_type stays 0, not
1, and the county's doc_type_distribution is empty). -/
theorem C9_counterexample_empty_doc_type :
    docCountView (process_record ⟨2026, 1, 1⟩ ⟨"A", "", "", "", none, ""⟩ []) "A" "" = 0 ∧
    (generate_report (runAgg ⟨2026, 1, 1⟩ [⟨"A", "", "", "", none, ""⟩])).map
      (fun p => p.2.doc_type_distribution) = [[]] :=
  ⟨by decide, by decide⟩

/-- C9 (amended): doc-type counting is over raw strings and a record
increments the counter of its raw (non-normalized) doc_type by exactly
one whenever that doc_type is nonempty (an empty doc_type increments
nothing); in particular the raw doc types "D/T" and "DEED TRUST"
canonicalize to the same key yet stay two separate entries of the
county's doc_type_distribution. -/
theorem C9_amended_raw_doc_type_counting :
    (∀ (today : SDate) (r : ParsedRecord) (st : List (String × CountyData))
      (c dt : String),
      docCountView (process_record today r st) c dt =
        docCountView st c dt +
          (if c = r.county ∧ dt = r.doc_type ∧ r.doc_type ≠ "" then 1 else 0)) ∧
    Classifier.normalize "D/T" = Classifier.normalize "DEED TRUST" ∧
    (generate_report (runAgg ⟨2026, 1, 1⟩
      [⟨"A", "", "", "", none, "D/T"⟩, ⟨"A", "", "", "", none, "DEED TRUST"⟩])).map
        (fun p => p.2.doc_type_distribution) = [[("D/T", 1), ("DEED TRUST", 1)]] :=
  ⟨fun today r st c dt => docCountView_step today r st c dt, by decide, by decide⟩

/-- C10: a record with an empty page never raises (the embedding is a
total function) and is excluded from the book and page statistics: the
record's book-pattern bucket exists afterwards and equals its previous
value (or a fresh empty bucket), every page-pattern count and numeric
page min and max are unchanged for every county and book pattern, and
no other bucket is touched. -/
theorem C10_missing_page_resilience (today : SDate) (st : List (String × CountyData))
    (r : ParsedRecord) (hpage : r.page = "") :
    bookInfoView (process_record today r st) r.county (getPattern r.book) =
      some ((bookInfoView st r.county (getPattern r.book)).getD {}) ∧
    (∀ c b p, pageCountView (process_record today r st) c b p = pageCountView st c b p) ∧
    (∀ c b, minPageView (process_record today r st) c b = minPageView st c b) ∧
    (∀ c b, maxPageView (process_record today r st) c b = maxPageView st c b) ∧
    (∀ c b, ¬ (c = r.county ∧ b = getPattern r.book) →
      bookInfoView (process_record today r st) c b = bookInfoView st c b) := by
  refine ⟨?_, ?_, ?_, ?_, ?_⟩
  · rw [bookInfoView_step, if_pos ⟨rfl, rfl⟩, hpage, add_page_empty]
  · intro c b p
    rw [pageCountView_step]
    have : ¬ (c = r.county ∧ b = getPattern r.book ∧ r.page ≠ "" ∧
        p = getPattern r.page) := by
      intro hx
      exact hx.2.2.1 hpage
    rw [if_neg this, Nat.add_zero]
  · intro c b
    rw [minPageView_step]
    have : ¬ (c = r.county ∧ b = getPattern r.book ∧ r.page ≠ "" ∧
        r.page.data.all Char.isDigit) := by
      intro hx
      exact hx.2.2.1 hpage
    rw [if_neg this]
  · intro c b
    rw [maxPageView_step]
    have : ¬ (c = r.county ∧ b = getPattern r.book ∧ r.page ≠ "" ∧
        r.page.data.all Char.isDigit) := by
      intro hx
      exact hx.2.2.1 hpage
    rw [if_neg this]
  · intro c b hne
    rw [bookInfoView_step, if_neg hne]

/-- C10 witness: one concrete record with an empty page, the bucket
evaluated. -/
theorem C10_missing_page_resilience_witness :
    bookInfoView (process_record ⟨2026, 1, 1⟩ ⟨"A", "1", "B", "", none, ""⟩ []) "A"
      (getPattern "B") =
      some ((bookInfoView ([] : List (String × CountyData)) "A" (getPattern "B")).getD {}) ∧
    (bookInfoView ([] : List (String × CountyData)) "A" (getPattern "B")).getD {} =
      ({} : BookPatternInfo) :=
  ⟨(C10_missing_page_resilience ⟨2026, 1, 1⟩ [] ⟨"A", "1", "B", "", none, ""⟩ rfl).1,
    by decide⟩

/-- C1 counterexample: two records with the same county and the same
instrument-number shape but different raw values.  Swapping them swaps
the last-written example field of the shared pattern bucket, so the two
reports differ even though the inputs are permutations of each other:
the aggregation is not order-invariant in the sense of the claim. -/
theorem C1_counterexample_example_order :
    ((⟨"A", "1234", "", "", none, ""⟩ : ParsedRecord) ::
        (⟨"A", "5678", "", "", none, ""⟩ : ParsedRecord) :: []).Perm
      ((⟨"A", "5678", "", "", none, ""⟩ : ParsedRecord) ::
        (⟨"A", "1234", "", "", none, ""⟩ : ParsedRecord) :: []) ∧
    generate_report (runAgg ⟨2026, 1, 1⟩
        [⟨"A", "1234", "", "", none, ""⟩, ⟨"A", "5678", "", "", none, ""⟩]) ≠
      generate_report (runAgg ⟨2026, 1, 1⟩
        [⟨"A", "5678", "", "", none, ""⟩, ⟨"A", "1234", "", "", none, ""⟩]) :=
  ⟨List.Perm.swap (⟨"A", "5678", "", "", none, ""⟩ : ParsedRecord)
      (⟨"A", "1234", "", "", none, ""⟩ : ParsedRecord) [],
    by decide⟩

/-- C1 (amended): the aggregation is order-invariant in everything
except the example field and the order of the sorted report lists: for
permuted inputs every per-county view agrees — record counts,
instrument-pattern counts, page-pattern counts per book pattern, book
bucket membership, numeric page minima and maxima, earliest and latest
dates, the sorted anomaly lists, raw doc-type counts, the set of raw
doc-type keys and the number of distinct raw doc types. -/
theorem C1_amended_order_invariance (today : SDate) {l1 l2 : List ParsedRecord}
    (hp : l1.Perm l2) :
    (∀ c, rcView (runAgg today l1) c = rcView (runAgg today l2) c) ∧
    (∀ c p, instCountView (runAgg today l1) c p = instCountView (runAgg today l2) c p) ∧
    (∀ c b p, pageCountView (runAgg today l1) c b p =
      pageCountView (runAgg today l2) c b p) ∧
    (∀ c b, bookMemView (runAgg today l1) c b = bookMemView (runAgg today l2) c b) ∧
    (∀ c b, minPageView (runAgg today l1) c b = minPageView (runAgg today l2) c b) ∧
    (∀ c b, maxPageView (runAgg today l1) c b = maxPageView (runAgg today l2) c b) ∧
    (∀ c, earliestView (runAgg today l1) c = earliestView (runAgg today l2) c) ∧
    (∀ c, latestView (runAgg today l1) c = latestView (runAgg today l2) c) ∧
    (∀ c, anomaliesView (runAgg today l1) c = anomaliesView (runAgg today l2) c) ∧
    (∀ c dt, docCountView (runAgg today l1) c dt = docCountView (runAgg today l2) c dt) ∧
    (∀ c, docKeysView (runAgg today l1) c = docKeysView (runAgg today l2) c) ∧
    (∀ c, uniqueDocsView (runAgg today l1) c = uniqueDocsView (runAgg today l2) c) :=
  ⟨rcView_perm today hp, instCountView_perm today hp, pageCountView_perm today hp,
    bookMemView_perm today hp, minPageView_perm today hp, maxPageView_perm today hp,
    earliestView_perm today hp, latestView_perm today hp, anomaliesView_perm today hp,
    docCountView_perm today hp, docKeysView_perm today hp, uniqueDocsView_perm today hp⟩

/-- C1 witness: the amended invariance applied to a concrete swapped
pair of records, with the record-count view evaluated. -/
theorem C1_amended_witness :
    rcView (runAgg ⟨2026, 1, 1⟩
        [⟨"A", "1234", "", "", none, ""⟩, ⟨"A", "5678", "", "", none, ""⟩]) "A" =
      rcView (runAgg ⟨2026, 1, 1⟩
        [⟨"A", "5678", "", "", none, ""⟩, ⟨"A", "1234", "", "", none, ""⟩]) "A" ∧
    rcView (runAgg ⟨2026, 1, 1⟩
        [⟨"A", "1234", "", "", none, ""⟩, ⟨"A", "5678", "", "", none, ""⟩]) "A" = 2 :=
  ⟨(C1_amended_order_invariance ⟨2026, 1, 1⟩
      (List.Perm.swap (⟨"A", "5678", "", "", none, ""⟩ : ParsedRecord)
        (⟨"A", "1234", "", "", none, ""⟩ : ParsedRecord) [])).1 "A",
    by decide⟩

/-- The percentage's exact value before rounding, as a division of
rationals. -/
theorem divInt_pct (cnt T : Nat) :
    Rat.divInt (100 * (cnt : ℤ)) ((T : ℕ) : ℤ) = 100 * (cnt : ℚ) / (T : ℚ) := by
  rw [Rat.divInt_eq_div]
  push_cast
  ring

/-- C8 counterexample: 32 records in one county whose instrument
numbers all have distinct shapes.  Every percentage is
round(3.125, 2) = 3.12 (round-half-to-even), so the reported
percentages sum to 99.84, which is NOT within 0.1 of 100. -/
theorem C8_counterexample_sum_drift :
    (generate_report (runAgg ⟨2026, 1, 1⟩ ((List.range 32).map (fun i =>
        (⟨"A", ⟨List.replicate (i + 1) '1'⟩, "", "", none, "X"⟩ : ParsedRecord))))).map
      (fun p => p.2.instrument_patterns.map (fun e => e.percentage)) =
      [List.replicate 32 (Rat.divInt 312 100)] ∧
    ¬ |(List.replicate 32 (Rat.divInt 312 100)).sum - 100| ≤ (1 : ℚ) / 10 := by
  constructor
  · decide
  · have hs : (List.replicate 32 (Rat.divInt 312 100)).sum = 2496 / 25 := by
      rw [List.sum_replicate, nsmul_eq_mul, Rat.divInt_eq_div]
      norm_num
    rw [hs, show (2496 : ℚ) / 25 - 100 = -(4 / 25) by norm_num, abs_neg,
      abs_of_nonneg (show (0 : ℚ) ≤ 4 / 25 by norm_num)]
    norm_num

/-- C8 (amended): every instrument-pattern entry of a county report
carries percentage = round(count/total*100, 2) with total the county's
record count (0 when total = 0), every reported percentage lies in
[0, 100], and for total > 0 the percentages sum to within n/200 of 100
where n is the number of entries (each entry's rounding moves its
percentage by at most 1/200 = 0.005; the spec's fixed bound of 0.1 is
only valid for at most 20 entries and fails in general, see the
counterexample). -/
theorem C8_amended_percentage_bounds (today : SDate) (l : List ParsedRecord)
    (c : String) (cd : CountyData) (h : lookupA c (runAgg today l) = some cd) :
    (∀ e ∈ build_instrument_patterns cd cd.record_count,
      0 ≤ e.percentage ∧ e.percentage ≤ 100 ∧
      e.percentage = if cd.record_count = 0 then 0
        else pyRound2 (Rat.divInt (100 * (e.count : ℤ)) ((cd.record_count : ℕ) : ℤ))) ∧
    (cd.record_count ≠ 0 →
      |((build_instrument_patterns cd cd.record_count).map
          (fun e => e.percentage)).sum - 100| ≤
        ((build_instrument_patterns cd cd.record_count).length : ℚ) / 200) := by
  constructor
  · intro e he
    rw [build_instrument_patterns] at he
    have hmem := (sortDescBy_perm (fun (e : InstPatEntry) => e.count) _).mem_iff.1 he
    obtain ⟨q, hq, rfl⟩ := List.mem_map.1 hmem
    refine ⟨?_, ?_, rfl⟩
    · by_cases hT : cd.record_count = 0
      · simp [hT]
      · simp only [if_neg hT]
        apply pyRound2_nonneg
        rw [divInt_pct]
        positivity
    · by_cases hT : cd.record_count = 0
      · simp [hT]
      · simp only [if_neg hT]
        apply pyRound2_le_100
        rw [divInt_pct]
        have hcle : q.2.count ≤ cd.record_count := count_le_total today l c cd h q hq
        have hTpos : (0 : ℚ) < (cd.record_count : ℚ) := by
          exact_mod_cast Nat.pos_of_ne_zero hT
        rw [div_le_iff₀ hTpos]
        have : ((q.2.count : ℕ) : ℚ) ≤ ((cd.record_count : ℕ) : ℚ) := by exact_mod_cast hcle
        linarith
  · intro hT
    have hperm := sortDescBy_perm (fun (e : InstPatEntry) => e.count)
      (cd.instrument_patterns.map (fun p =>
        { pattern := p.1
          regex := "^" ++ p.1 ++ "$"
          exampleStr := p.2.exampleStr
          count := p.2.count
          percentage := if cd.record_count = 0 then 0
            else pyRound2 (Rat.divInt (100 * (p.2.count : ℤ))
              ((cd.record_count : ℕ) : ℤ)) }))
    have hsum : ((build_instrument_patterns cd cd.record_count).map
        (fun e => e.percentage)).sum =
        ((cd.instrument_patterns.map (fun q => q.2.count)).map
          (fun (cnt : ℕ) => pyRound2 (Rat.divInt (100 * (cnt : ℤ))
            ((cd.record_count : ℕ) : ℤ)))).sum := by
      rw [build_instrument_patterns]
      rw [(hperm.map (fun e => e.percentage)).sum_eq]
      rw [List.map_map, List.map_map]
      simp only [Function.comp, if_neg hT]
      rfl
    have hlen : (build_instrument_patterns cd cd.record_count).length =
        (cd.instrument_patterns.map (fun q => q.2.count)).length := by
      rw [build_instrument_patterns, hperm.length_eq, List.length_map, List.length_map]
    rw [hsum, hlen]
    have hTQ : ((cd.record_count : ℕ) : ℚ) ≠ 0 := by
      exact_mod_cast hT
    have hcsum : (((cd.instrument_patterns.map (fun q => q.2.count)).sum : ℕ) : ℚ) =
        ((cd.record_count : ℕ) : ℚ) := by
      exact_mod_cast congrArg (fun (n : ℕ) => (n : ℚ)) (run_inst_sum today l c cd h)
    have hg := sum_true_pct (cd.instrument_patterns.map (fun q => q.2.count))
      ((cd.record_count : ℕ) : ℚ) hTQ hcsum
    have hb : ∀ (cnt : ℕ), cnt ∈ cd.instrument_patterns.map (fun q => q.2.count) →
        |pyRound2 (Rat.divInt (100 * (cnt : ℤ)) ((cd.record_count : ℕ) : ℤ)) -
          100 * (cnt : ℚ) / ((cd.record_count : ℕ) : ℚ)| ≤ 1 / 200 := by
      intro cnt _
      have := pyRound2_err (Rat.divInt (100 * (cnt : ℤ)) ((cd.record_count : ℕ) : ℤ))
      rwa [divInt_pct] at this ⊢
    have herr := sum_abs_err (cd.instrument_patterns.map (fun q => q.2.count))
      (fun (cnt : ℕ) => pyRound2 (Rat.divInt (100 * (cnt : ℤ)) ((cd.record_count : ℕ) : ℤ)))
      (fun (cnt : ℕ) => 100 * (cnt : ℚ) / ((cd.record_count : ℕ) : ℚ)) hb
    rw [hg] at herr
    exact herr

/-- The county bucket produced by one record with instrument number
"7", used to instantiate the amended percentage-bound theorem. -/
def C8cd : CountyData :=
  { record_count := 1
    instrument_patterns := [("\\d{1}", { exampleStr := "7", count := 1 })]
    book_patterns := [("", { page_patterns := [], min_page := none, max_page := none })]
    date_range := { earliest := none, latest := none, anomalies := [] }
    doc_types := { counts := [] } }

/-- C8 witness: the amended theorem instantiated at one concrete
single-record county. -/
theorem C8_amended_witness :
    lookupA "A" (runAgg ⟨2026, 1, 1⟩ [⟨"A", "7", "", "", none, ""⟩]) = some C8cd ∧
    |((build_instrument_patterns C8cd C8cd.record_count).map
        (fun e => e.percentage)).sum - 100| ≤
      ((build_instrument_patterns C8cd C8cd.record_count).length : ℚ) / 200 := by
  have h : lookupA "A" (runAgg ⟨2026, 1, 1⟩ [⟨"A", "7", "", "", none, ""⟩]) = some C8cd := by
    decide
  exact ⟨h, (C8_amended_percentage_bounds ⟨2026, 1, 1⟩
    [⟨"A", "7", "", "", none, ""⟩] "A" C8cd h).2 (by decide)⟩
